import Mathlib

set_option maxHeartbeats 1000000

namespace Egokit

/-! # Verification of EgoKit core semantics

Shallow embedding of EgoKit (scope merging, document splicing, Imprint
pattern detection and policy suggestion), translated from the Python
sources in `src/egokit`.  Python dicts are modelled as insertion-ordered
association lists, which matches CPython's guaranteed dict iteration
order; machine text is modelled as `String` / `List Char`.
-/

/-! ## Rule model (`models.py`) -/

/-- Severity levels of `models.Severity`. -/
inductive Severity
  | critical
  | warning
  | info
deriving DecidableEq, Repr

/-- `models.PolicyRule`, the validated rule record. -/
structure PolicyRule where
  id : String
  rule : String
  severity : Severity
  detector : Option String
  auto_fix : Bool
  example_violation : Option String
  example_fix : Option String
  tags : List String
deriving DecidableEq, Repr

def isUpperAZ (c : Char) : Bool := 'A' ≤ c && c ≤ 'Z'

def isDigit09 (c : Char) : Bool := '0' ≤ c && c ≤ '9'

/-- The check of `PolicyRule.validate_id_format`: Python regex
`^[A-Z]{2,6}-\d{3}$`.  The uppercase run length is forced by the
following `-`, so the greedy quantifier is equivalent to taking the
maximal run. -/
def validRuleId (s : String) : Bool :=
  let cs := s.data
  let k := (cs.takeWhile isUpperAZ).length
  decide (2 ≤ k) && decide (k ≤ 6) &&
  (match cs.drop k with
   | ['-', d1, d2, d3] => isDigit09 d1 && isDigit09 d2 && isDigit09 d3
   | _ => false)

def isDetectorClass (c : Char) : Bool := ('a' ≤ c && c ≤ 'z') || c == '_' || c == '.'

/-- The check of `PolicyRule.validate_detector_name`: Python regex
`^[a-z_.]+\.v\d+$`.  Matching from the right: the trailing digit run is
maximal (a shorter `\d+` would put a digit, not `v`, before it), then a
literal `v` and `.`, then a non-empty `[a-z_.]+` head. -/
def validDetector (s : String) : Bool :=
  let r := s.data.reverse
  let ds := r.takeWhile isDigit09
  !ds.isEmpty &&
  (match r.drop ds.length with
   | 'v' :: '.' :: rest => !rest.isEmpty && rest.all isDetectorClass
   | _ => false)

/-- A raw rule object as it appears in a charter YAML category list,
before pydantic validation (`none` = field absent).  This collapsed
form is adequate for the override semantics; the `detector` entry of a
dict can also be explicitly null, which pydantic v2 treats differently
from absence — that input is modelled by the refined `RuleDictN` in the
error-contract section below. -/
structure RuleDict where
  idF : Option String := none
  ruleF : Option String := none
  severityF : Option String := none
  detectorF : Option String := none
  autoFixF : Option Bool := none
  exampleViolationF : Option String := none
  exampleFixF : Option String := none
  tagsF : Option (List String) := none
deriving DecidableEq, Repr

/-- Severity string acceptance of the `Severity(str, Enum)` pydantic field. -/
def parseSeverity (s : String) : Option Severity :=
  if s = "critical" then some .critical
  else if s = "warning" then some .warning
  else if s = "info" then some .info
  else none

/-- `PolicyRule.model_validate` on a rule dict: required fields `id`,
`rule`, `severity`; `id` and (when present) `detector` must match their
format regexes; remaining fields default. Returns `none` on any
validation failure reported as a `pydantic.ValidationError`.  The one
abnormal exit of `model_validate` — the uncaught `TypeError` raised by
`validate_detector_name` on an explicitly-null detector — is outside
this collapsed form and is modelled by `validateRuleN` below. -/
def validateRule (d : RuleDict) : Option PolicyRule :=
  match d.idF, d.ruleF, d.severityF with
  | some i, some r, some sv =>
    if validRuleId i then
      match parseSeverity sv with
      | some sev =>
        match d.detectorF with
        | some det =>
          if validDetector det then
            some ⟨i, r, sev, some det, d.autoFixF.getD false,
                  d.exampleViolationF, d.exampleFixF, d.tagsF.getD []⟩
          else none
        | none =>
          some ⟨i, r, sev, none, d.autoFixF.getD false,
                d.exampleViolationF, d.exampleFixF, d.tagsF.getD []⟩
      | none => none
    else none
  | _, _, _ => none

/-- A scope's data in the charter: categories (insertion-ordered dict of
category name to rule-dict list), as iterated by `merge_scope_rules`. -/
def ScopeData := List (String × List RuleDict)
deriving instance DecidableEq, Repr for ScopeData

/-- `models.PolicyCharter` restricted to the fields read by
`merge_scope_rules` (metadata and session config are never consulted by
the scope resolver). -/
structure PolicyCharter where
  version : String
  scopes : List (String × ScopeData)
deriving DecidableEq, Repr

/-! ## Insertion-ordered dictionaries (CPython dict semantics) -/

/-- `m[k] = v` on a CPython dict: replaces the value in place if the key
exists (keeping its position), else appends the new key at the end. -/
def insertD {β : Type} (m : List (String × β)) (k : String) (v : β) :
    List (String × β) :=
  match m with
  | [] => [(k, v)]
  | (k0, v0) :: t => if k0 = k then (k0, v) :: t else (k0, v0) :: insertD t k v

/-- Dict key lookup. -/
def lookupD {β : Type} (m : List (String × β)) (k : String) : Option β :=
  match m with
  | [] => none
  | (k0, v) :: t => if k0 = k then some v else lookupD t k

theorem lookupD_insertD {β : Type} (m : List (String × β)) (k k' : String) (v : β) :
    lookupD (insertD m k v) k' = if k' = k then some v else lookupD m k' := by
  induction m with
  | nil =>
    simp only [insertD, lookupD]
    by_cases h : k' = k
    · have h2 : k = k' := h.symm
      rw [if_pos h2, if_pos h]
    · have h2 : ¬ k = k' := fun hh => h hh.symm
      rw [if_neg h2, if_neg h]
  | cons p t ih =>
    obtain ⟨k0, v0⟩ := p
    simp only [insertD]
    by_cases h0 : k0 = k
    · rw [if_pos h0]
      simp only [lookupD]
      by_cases h : k' = k
      · have h2 : k0 = k' := h0.trans h.symm
        rw [if_pos h2, if_pos h]
      · have h2 : ¬ k0 = k' := fun hh => h (hh.symm.trans h0)
        rw [if_neg h2, if_neg h, if_neg h2]
    · rw [if_neg h0]
      simp only [lookupD]
      by_cases h2 : k0 = k'
      · have hne : ¬ k' = k := fun hh => h0 (h2.trans hh)
        rw [if_pos h2, if_neg hne, if_pos h2]
      · rw [if_neg h2, ih]
        by_cases h : k' = k
        · rw [if_pos h, if_pos h]
        · rw [if_neg h, if_neg h, if_neg h2]

theorem keys_insertD {β : Type} (m : List (String × β)) (k : String) (v : β) :
    (insertD m k v).map Prod.fst =
      if k ∈ m.map Prod.fst then m.map Prod.fst else m.map Prod.fst ++ [k] := by
  induction m with
  | nil => simp [insertD]
  | cons p t ih =>
    obtain ⟨k0, v0⟩ := p
    by_cases h0 : k0 = k
    · subst h0; simp [insertD]
    · have hne : ¬ k = k0 := fun h => h0 h.symm
      by_cases hk : k ∈ t.map Prod.fst <;>
        simp [insertD, h0, hne, hk, ih]

/-! ## Scope merging (`registry.PolicyRegistry.merge_scope_rules`) -/

/-- Rules of a merged-rule map keyed by rule id: insert a validated rule
under its id. -/
def insertRule (m : List (String × PolicyRule)) (r : PolicyRule) :
    List (String × PolicyRule) :=
  insertD m r.id r

def insertAllRules (m : List (String × PolicyRule)) (rs : List PolicyRule) :
    List (String × PolicyRule) :=
  rs.foldl insertRule m

/-- The valid rules of one scope in traversal order (categories in dict
order, rule dicts in list order, invalid dicts skipped). -/
def scopeValidRules (sd : ScopeData) : List PolicyRule :=
  sd.flatMap (fun c => c.2.filterMap validateRule)

/-- The per-scope loop body of `merge_scope_rules`: validate every rule
dict of every category, inserting the valid ones into the accumulator
map and silently skipping invalid ones. -/
def processScope (m : List (String × PolicyRule)) (sd : ScopeData) :
    List (String × PolicyRule) :=
  sd.foldl
    (fun m c =>
      c.2.foldl
        (fun m rd =>
          match validateRule rd with
          | some r => insertRule m r
          | none => m)
        m)
    m

/-- The scope-precedence loop of `merge_scope_rules`, threading the
accumulator map and failing with `ScopeError` on an unknown scope name. -/
def mergeGo (scopes : List (String × ScopeData))
    (m : List (String × PolicyRule)) :
    List String → Except String (List (String × PolicyRule))
  | [] => .ok m
  | s :: rest =>
    match lookupD scopes s with
    | none => .error ("Scope " ++ s ++ " not found in charter")
    | some sd => mergeGo scopes (processScope m sd) rest

/-- `PolicyRegistry.merge_scope_rules(charter, scope_precedence)`:
returns the merged map's values, or a `ScopeError` (modelled as the
`Except` error case). -/
def mergeScopeRules (charter : PolicyCharter) (prec : List String) :
    Except String (List PolicyRule) :=
  (mergeGo charter.scopes [] prec).map (List.map Prod.snd)

theorem processScope_eq (m : List (String × PolicyRule)) (sd : ScopeData) :
    processScope m sd = insertAllRules m (scopeValidRules sd) := by
  induction sd generalizing m with
  | nil => rfl
  | cons c t ih =>
    show processScope m (c :: t) = _
    have inner :
        ∀ (rds : List RuleDict) (m : List (String × PolicyRule)),
          rds.foldl
            (fun m rd =>
              match validateRule rd with
              | some r => insertRule m r
              | none => m)
            m = insertAllRules m (rds.filterMap validateRule) := by
      intro rds
      induction rds with
      | nil => intro m; rfl
      | cons rd t ih2 =>
        intro m
        cases h : validateRule rd <;>
          simp [List.foldl, List.filterMap_cons, h, ih2, insertAllRules]
    have : processScope m (c :: t) =
        processScope (insertAllRules m (c.2.filterMap validateRule)) t := by
      simp [processScope, List.foldl, inner c.2 m]
    rw [this, ih]
    simp [scopeValidRules, insertAllRules, List.foldl_append]

/-! ## Well-formedness of the merged-rule map -/

/-- Invariant of the `merged_rules` dict: keys are distinct and each
value is stored under its own rule id. -/
def WfMap (m : List (String × PolicyRule)) : Prop :=
  (m.map Prod.fst).Nodup ∧ ∀ p ∈ m, p.2.id = p.1

theorem mem_insertD {β : Type} {m : List (String × β)} {k : String} {v : β}
    {p : String × β} (h : p ∈ insertD m k v) : p = (k, v) ∨ p ∈ m := by
  induction m with
  | nil => simp only [insertD, List.mem_singleton] at h; exact Or.inl h
  | cons q t ih =>
    obtain ⟨k0, v0⟩ := q
    by_cases h0 : k0 = k
    · rw [insertD, if_pos h0] at h
      rcases List.mem_cons.mp h with h1 | h1
      · exact Or.inl (by rw [h1, h0])
      · exact Or.inr (List.mem_cons_of_mem _ h1)
    · rw [insertD, if_neg h0] at h
      rcases List.mem_cons.mp h with h1 | h1
      · exact Or.inr (h1 ▸ List.mem_cons_self _ _)
      · rcases ih h1 with h2 | h2
        · exact Or.inl h2
        · exact Or.inr (List.mem_cons_of_mem _ h2)

theorem wfMap_insertRule {m : List (String × PolicyRule)} (h : WfMap m)
    (r : PolicyRule) : WfMap (insertRule m r) := by
  constructor
  · rw [insertRule, keys_insertD]
    by_cases hk : r.id ∈ m.map Prod.fst
    · rw [if_pos hk]; exact h.1
    · rw [if_neg hk]
      simp only [List.nodup_append, List.nodup_cons, List.not_mem_nil,
        not_false_iff, List.nodup_nil, and_true, true_and]
      constructor
      · exact h.1
      · intro a ha
        simp only [List.mem_singleton]
        intro hak; exact hk (hak ▸ ha)
  · intro p hp
    rcases mem_insertD hp with h1 | h1
    · rw [h1]
    · exact h.2 p h1

theorem wfMap_insertAllRules {m : List (String × PolicyRule)} (h : WfMap m)
    (rs : List PolicyRule) : WfMap (insertAllRules m rs) := by
  induction rs generalizing m with
  | nil => exact h
  | cons r t ih => exact ih (wfMap_insertRule h r)

theorem wfMap_nil : WfMap [] := ⟨List.nodup_nil, by intro p hp; cases hp⟩

theorem lookupD_eq_none_iff {β : Type} (m : List (String × β)) (k : String) :
    lookupD m k = none ↔ k ∉ m.map Prod.fst := by
  induction m with
  | nil => simp [lookupD]
  | cons p t ih =>
    obtain ⟨k0, v0⟩ := p
    by_cases h : k0 = k
    · subst h
      simp [lookupD]
    · simp only [lookupD, if_neg h, List.map_cons, List.mem_cons, ih]
      constructor
      · intro hn
        rintro (h1 | h1)
        · exact h h1.symm
        · exact hn h1
      · intro hn
        intro h1
        exact hn (Or.inr h1)

theorem getLast?_cons_some {α : Type} {l : List α} {x : α}
    (h : l.getLast? = some x) (a : α) : (a :: l).getLast? = some x := by
  cases l with
  | nil => simp [List.getLast?] at h
  | cons b t => rw [List.getLast?_cons_cons]; exact h

/-- Effect of the whole per-scope insertion pass on a single key: the
last inserted rule with that id wins; if none carries the id, the old
binding is unchanged. -/
theorem lookupD_insertAllRules (rs : List PolicyRule)
    (m : List (String × PolicyRule)) (x : String) :
    lookupD (insertAllRules m rs) x =
      match (rs.filter (fun r => r.id == x)).getLast? with
      | some r => some r
      | none => lookupD m x := by
  induction rs generalizing m with
  | nil => rfl
  | cons r t ih =>
    show lookupD (insertAllRules (insertRule m r) t) x = _
    rw [ih, List.filter_cons]
    by_cases hr : r.id = x
    · rw [if_pos (by simp [hr])]
      cases hgl : (t.filter (fun r => r.id == x)).getLast? with
      | some r' =>
        rw [getLast?_cons_some hgl]
      | none =>
        have hnil : t.filter (fun r => r.id == x) = [] := by
          cases hf : t.filter (fun r => r.id == x) with
          | nil => rfl
          | cons a l =>
            rw [hf] at hgl
            cases l with
            | nil => simp [List.getLast?] at hgl
            | cons b l2 => rw [List.getLast?_cons_cons] at hgl
                           exact absurd hgl (by simp [List.getLast?_eq_none_iff])
        rw [hnil]
        show lookupD (insertD m r.id r) x = some r
        rw [lookupD_insertD, if_pos hr.symm]
    · rw [if_neg (by simp [hr])]
      cases hgl : (t.filter (fun r => r.id == x)).getLast? with
      | some r' => rfl
      | none =>
        show lookupD (insertD m r.id r) x = lookupD m x
        rw [lookupD_insertD, if_neg (fun hh => hr hh.symm)]

/-- In a well-formed map, the values carrying a given id are exactly the
binding of that key. -/
theorem values_filter_of_wf (m : List (String × PolicyRule)) (x : String)
    (h : WfMap m) :
    (m.map Prod.snd).filter (fun r => r.id == x) =
      match lookupD m x with
      | some r => [r]
      | none => [] := by
  induction m with
  | nil => rfl
  | cons p t ih =>
    obtain ⟨k0, v0⟩ := p
    have hid : v0.id = k0 := h.2 (k0, v0) (List.mem_cons_self _ _)
    have hwt : WfMap t := by
      constructor
      · exact (List.nodup_cons.mp h.1).2
      · intro q hq; exact h.2 q (List.mem_cons_of_mem _ hq)
    by_cases hk : k0 = x
    · have hb : (v0.id == x) = true := by simp [hid, hk]
      have hnot : x ∉ t.map Prod.fst := by
        have := (List.nodup_cons.mp h.1).1
        rw [hk] at this; exact this
      have hnone : lookupD t x = none := (lookupD_eq_none_iff t x).mpr hnot
      simp only [List.map_cons, List.filter_cons, hb, if_true, lookupD,
        if_pos hk, ih hwt, hnone]
    · have hb : (v0.id == x) = false := by simp [hid, hk]
      simp only [List.map_cons, List.filter_cons, hb, Bool.false_eq_true,
        if_false, lookupD, if_neg hk, ih hwt]

theorem filter_eq_singleton_unique {α : Type} {l : List α} {p : α → Bool}
    {r : α} (h : l.filter p = [r]) :
    ∀ a ∈ l, p a = true → a = r := by
  intro a ha hpa
  have : a ∈ l.filter p := List.mem_filter.mpr ⟨ha, hpa⟩
  rw [h] at this
  exact List.mem_singleton.mp this

theorem filter_eq_singleton_self {α : Type} {l : List α} {p : α → Bool}
    {r : α} (h : l.filter p = [r]) : p r = true := by
  have : r ∈ l.filter p := h ▸ List.mem_singleton.mpr rfl
  exact (List.mem_filter.mp this).2

/-- Inserting more rules only appends new keys after the existing ones. -/
theorem keys_insertAllRules_ext (m : List (String × PolicyRule))
    (rs : List PolicyRule) :
    ∃ t, (insertAllRules m rs).map Prod.fst = m.map Prod.fst ++ t := by
  induction rs generalizing m with
  | nil => exact ⟨[], by simp [insertAllRules]⟩
  | cons r t ih =>
    show ∃ u, (insertAllRules (insertRule m r) t).map Prod.fst = _
    obtain ⟨u, hu⟩ := ih (insertRule m r)
    rw [hu, insertRule, keys_insertD]
    by_cases hk : r.id ∈ m.map Prod.fst
    · exact ⟨u, by rw [if_pos hk]⟩
    · exact ⟨r.id :: u, by rw [if_neg hk, List.append_assoc]; rfl⟩

theorem lookupD_some_idx {β : Type} {m : List (String × β)} {k : String}
    {v : β} (h : lookupD m k = some v) :
    ∃ i : Nat, m[i]? = some (k, v) := by
  induction m with
  | nil => simp [lookupD] at h
  | cons p t ih =>
    obtain ⟨k0, v0⟩ := p
    by_cases h0 : k0 = k
    · rw [lookupD, if_pos h0] at h
      refine ⟨0, ?_⟩
      have hv : v0 = v := Option.some.inj h
      simp [h0, hv]
    · rw [lookupD, if_neg h0] at h
      obtain ⟨i, hi⟩ := ih h
      exact ⟨i + 1, by simpa using hi⟩

theorem listMem_of_getElem? {α : Type} :
    ∀ {l : List α} {i : Nat} {a : α}, l[i]? = some a → a ∈ l := by
  intro l
  induction l with
  | nil => intro i a h; simp at h
  | cons b t ih =>
    intro i a h
    cases i with
    | zero =>
      simp only [List.getElem?_cons_zero] at h
      exact (Option.some.inj h) ▸ List.mem_cons_self _ _
    | succ j =>
      simp only [List.getElem?_cons_succ] at h
      exact List.mem_cons_of_mem _ (ih h)

theorem mergeScopeRules_pair (charter : PolicyCharter) (A B : String)
    (sdA sdB : ScopeData)
    (hA : lookupD charter.scopes A = some sdA)
    (hB : lookupD charter.scopes B = some sdB) :
    mergeScopeRules charter [A, B] =
      .ok ((insertAllRules (insertAllRules [] (scopeValidRules sdA))
        (scopeValidRules sdB)).map Prod.snd) := by
  unfold mergeScopeRules
  simp only [mergeGo, hA, hB, processScope_eq]
  rfl

theorem mergeScopeRules_single (charter : PolicyCharter) (A : String)
    (sdA : ScopeData) (hA : lookupD charter.scopes A = some sdA) :
    mergeScopeRules charter [A] =
      .ok ((insertAllRules [] (scopeValidRules sdA)).map Prod.snd) := by
  unfold mergeScopeRules
  simp only [mergeGo, hA, processScope_eq]
  rfl

/-- C1: Scope merge override: if scopes A (lower precedence) and B
(higher precedence) each define exactly one valid rule with id `x`, and
the two rule texts differ, then `merge_scope_rules(charter, [A, B])`
succeeds and its result contains exactly one rule with id `x`, namely
B's version, sitting at the same index `i` at which A's version sits in
the merge of `[A]` alone (the overwritten rule keeps its first-insertion
position). -/
theorem scope_merge_override
    (charter : PolicyCharter) (A B : String) (sdA sdB : ScopeData)
    (x : String) (rA rB : PolicyRule)
    (hA : lookupD charter.scopes A = some sdA)
    (hB : lookupD charter.scopes B = some sdB)
    (hxA : (scopeValidRules sdA).filter (fun r => r.id == x) = [rA])
    (hxB : (scopeValidRules sdB).filter (fun r => r.id == x) = [rB])
    (hdiff : rA.rule ≠ rB.rule) :
    ∃ (l lA : List PolicyRule) (i : Nat),
      mergeScopeRules charter [A, B] = .ok l ∧
      mergeScopeRules charter [A] = .ok lA ∧
      l.filter (fun r => r.id == x) = [rB] ∧
      lA[i]? = some rA ∧ l[i]? = some rB := by
  set m1 := insertAllRules [] (scopeValidRules sdA) with hm1
  set m2 := insertAllRules m1 (scopeValidRules sdB) with hm2
  have wf1 : WfMap m1 := wfMap_insertAllRules wfMap_nil _
  have wf2 : WfMap m2 := wfMap_insertAllRules wf1 _
  have hidA : rA.id = x := by
    have := filter_eq_singleton_self hxA
    simpa using this
  have hidB : rB.id = x := by
    have := filter_eq_singleton_self hxB
    simpa using this
  have hlook1 : lookupD m1 x = some rA := by
    rw [hm1, lookupD_insertAllRules, hxA]
    rfl
  have hlook2 : lookupD m2 x = some rB := by
    rw [hm2, lookupD_insertAllRules, hxB]
    rfl
  refine ⟨m2.map Prod.snd, m1.map Prod.snd, ?_⟩
  obtain ⟨i, hi⟩ := lookupD_some_idx hlook1
  refine ⟨i, mergeScopeRules_pair charter A B sdA sdB hA hB,
    mergeScopeRules_single charter A sdA hA, ?_, ?_, ?_⟩
  · rw [values_filter_of_wf m2 x wf2, hlook2]
  · rw [List.getElem?_map, hi]
    rfl
  · -- the merged map keeps key x at the same index i, bound to rB
    obtain ⟨t, ht⟩ := keys_insertAllRules_ext m1 (scopeValidRules sdB)
    have hilt : i < m1.length := by
      by_contra hge
      rw [List.getElem?_eq_none (Nat.le_of_not_lt hge)] at hi
      cases hi
    have hkey1 : (m1.map Prod.fst)[i]? = some x := by
      rw [List.getElem?_map, hi]
      rfl
    have hkey2 : (m2.map Prod.fst)[i]? = some x := by
      rw [← hm2] at ht
      rw [ht, List.getElem?_append_left (by simpa using hilt), hkey1]
    rw [List.getElem?_map] at hkey2
    cases hp : m2[i]? with
    | none => rw [hp] at hkey2; cases hkey2
    | some p =>
      rw [hp] at hkey2
      have hpk : p.1 = x := Option.some.inj hkey2
      have hpmem : p ∈ m2 := listMem_of_getElem? hp
      have hpid : p.2.id = p.1 := wf2.2 p hpmem
      have hpval : p.2 ∈ m2.map Prod.snd := List.mem_map_of_mem Prod.snd hpmem
      have hfil : (m2.map Prod.snd).filter (fun r => r.id == x) = [rB] := by
        rw [values_filter_of_wf m2 x wf2, hlook2]
      have hpB : p.2 = rB :=
        filter_eq_singleton_unique hfil p.2 hpval (by simp [hpid, hpk])
      rw [List.getElem?_map, hp]
      show some p.2 = some rB
      rw [hpB]

/-! ### Concrete witness data for the scope-merge theorems -/

def ruleDictX1 : RuleDict :=
  { idF := some "XX-001", ruleF := some "old text", severityF := some "critical" }

def ruleDictX2 : RuleDict :=
  { idF := some "XX-001", ruleF := some "new text", severityF := some "warning" }

def ruleDictOther : RuleDict :=
  { idF := some "YY-001", ruleF := some "other", severityF := some "info" }

def ruleDictBad : RuleDict :=
  { idF := some "bad id", ruleF := some "broken", severityF := some "critical" }

def scopeA : ScopeData := [("security", [ruleDictX1, ruleDictBad]), ("docs", [ruleDictOther])]

def scopeB : ScopeData := [("security", [ruleDictX2])]

def charterW : PolicyCharter :=
  { version := "1.0.0", scopes := [("global", scopeA), ("teams/backend", scopeB)] }

def ruleX1 : PolicyRule :=
  ⟨"XX-001", "old text", .critical, none, false, none, none, []⟩

def ruleX2 : PolicyRule :=
  ⟨"XX-001", "new text", .warning, none, false, none, none, []⟩

theorem scope_merge_override_witness :
    ∃ (l lA : List PolicyRule) (i : Nat),
      mergeScopeRules charterW ["global", "teams/backend"] = .ok l ∧
      mergeScopeRules charterW ["global"] = .ok lA ∧
      l.filter (fun r => r.id == "XX-001") = [ruleX2] ∧
      lA[i]? = some ruleX1 ∧ l[i]? = some ruleX2 :=
  scope_merge_override charterW "global" "teams/backend" scopeA scopeB
    "XX-001" ruleX1 ruleX2 (by decide) (by decide) (by decide) (by decide)
    (by decide)

/-! ## C5: error contract of `merge_scope_rules`

The merge loop catches only `pydantic.ValidationError` around
`PolicyRule.model_validate` (registry.py:193-198).  pydantic v2 folds
core-schema failures and validator `ValueError`s into one
`ValidationError`, but any other exception propagates.  The `detector`
field is typed `str | None`, so an explicitly-null `detector:` entry
passes the core check and reaches the after-validator
`validate_detector_name` (models.py:55-62) as `None`;
`re.match(pattern, None)` then raises `TypeError`, which pydantic v2
does not convert and which therefore escapes the
`except ValidationError` in `merge_scope_rules`.  To express that input
the rule-dict model must separate an absent `detector` key from an
explicitly null one; the definitions below refine `RuleDict`
accordingly.  Only `detector` needs this: an explicit null on `id`,
`rule`, `severity`, `auto_fix` or `tags` fails the core type check
(caught as `ValidationError`, like any invalid value), and on the
optional example fields it equals the default. -/

/-- The `detector` entry of a raw rule dict: key absent, explicit YAML
null, or a string value. -/
inductive DetectorField
  | absent
  | null
  | given (s : String)
deriving DecidableEq, Repr

/-- A raw rule object with the `detector` entry represented exactly;
the other fields are as in `RuleDict`. -/
structure RuleDictN where
  idF : Option String := none
  ruleF : Option String := none
  severityF : Option String := none
  detectorF : DetectorField := .absent
  autoFixF : Option Bool := none
  exampleViolationF : Option String := none
  exampleFixF : Option String := none
  tagsF : Option (List String) := none
deriving DecidableEq, Repr

/-- Forget the absent/null distinction on `detector` (both become
`none`). -/
def toRuleDict (d : RuleDictN) : RuleDict :=
  { idF := d.idF, ruleF := d.ruleF, severityF := d.severityF,
    detectorF := match d.detectorF with | .given s => some s | _ => none,
    autoFixF := d.autoFixF, exampleViolationF := d.exampleViolationF,
    exampleFixF := d.exampleFixF, tagsF := d.tagsF }

/-- Outcome of `PolicyRule.model_validate` on a raw rule dict, with the
exception channel made explicit: a validated rule, a
`ValidationError` (caught by the merge loop), or the uncaught
`TypeError`. -/
inductive ValidationOutcome
  | ok (r : PolicyRule)
  | invalid
  | typeError
deriving DecidableEq, Repr

/-- `PolicyRule.model_validate` on a null-aware rule dict.  pydantic v2
validates fields in declaration order, collecting failures into one
`ValidationError`; but the `detector` after-validator runs on an
explicitly provided `None` (accepted by the `str | None` core check),
`re.match` in `validate_detector_name` then raises `TypeError`, which
propagates immediately — regardless of whether other fields are also
invalid.  On every other input the outcome agrees with `validateRule`
on the collapsed dict. -/
def validateRuleN (d : RuleDictN) : ValidationOutcome :=
  match d.detectorF with
  | .null => .typeError
  | _ =>
    match validateRule (toRuleDict d) with
    | some r => .ok r
    | none => .invalid

/-- Scope data with null-aware rule dicts. -/
def ScopeDataN := List (String × List RuleDictN)
deriving instance DecidableEq, Repr for ScopeDataN

/-- Charter with null-aware rule dicts. -/
structure PolicyCharterN where
  version : String
  scopes : List (String × ScopeDataN)
deriving DecidableEq, Repr

/-- Validating the dict raises the uncaught `TypeError`
(explicitly-null detector). -/
def ruleDictCrashes (d : RuleDictN) : Bool :=
  match validateRuleN d with
  | .typeError => true
  | _ => false

/-- The validated rule of a dict, if validation succeeds. -/
def okRuleN (d : RuleDictN) : Option PolicyRule :=
  match validateRuleN d with
  | .ok r => some r
  | _ => none

/-- Valid rules of a null-aware scope in traversal order. -/
def scopeValidRulesN (sd : List (String × List RuleDictN)) : List PolicyRule :=
  sd.flatMap (fun c => c.2.filterMap okRuleN)

/-- Some rule dict of the scope raises the uncaught `TypeError`. -/
def scopeHasCrash (sd : List (String × List RuleDictN)) : Bool :=
  sd.any (fun c => c.2.any ruleDictCrashes)

/-- No rule dict anywhere in the charter has an explicitly-null
detector. -/
def charterNoCrash (ch : PolicyCharterN) : Bool :=
  ch.scopes.all (fun p => !scopeHasCrash p.2)

/-- The inner rule loop of `merge_scope_rules` over one category's rule
dicts: `try ... except ValidationError: continue` — valid rules are
inserted, invalid ones skipped, and the `TypeError` aborts the loop. -/
def processRulesN :
    List (String × PolicyRule) → List RuleDictN →
      Except Unit (List (String × PolicyRule))
  | m, [] => .ok m
  | m, d :: t =>
    match validateRuleN d with
    | .ok r => processRulesN (insertRule m r) t
    | .invalid => processRulesN m t
    | .typeError => .error ()

/-- The category loop of `merge_scope_rules` over one scope. -/
def processScopeN :
    List (String × PolicyRule) → List (String × List RuleDictN) →
      Except Unit (List (String × PolicyRule))
  | m, [] => .ok m
  | m, c :: t =>
    match processRulesN m c.2 with
    | .ok m2 => processScopeN m2 t
    | .error e => .error e

/-- How `merge_scope_rules` can terminate abnormally: the `ScopeError`
it raises itself for a missing scope, or the uncaught `TypeError`
escaping `PolicyRule.model_validate`. -/
inductive MergeErr
  | scopeErr (msg : String)
  | typeErr
deriving DecidableEq, Repr

/-- Scope-precedence loop of `merge_scope_rules` on null-aware
charters: each scope's presence is checked when it is reached, and a
`TypeError` raised while processing a scope's rules aborts the call at
once. -/
def mergeGoN (scopes : List (String × ScopeDataN))
    (m : List (String × PolicyRule)) :
    List String → Except MergeErr (List (String × PolicyRule))
  | [] => .ok m
  | s :: rest =>
    match lookupD scopes s with
    | none => .error (.scopeErr ("Scope " ++ s ++ " not found in charter"))
    | some sd =>
      match processScopeN m sd with
      | .ok m2 => mergeGoN scopes m2 rest
      | .error _ => .error .typeErr

/-- `merge_scope_rules` on null-aware charters: the merged map's
values, a `ScopeError`, or the uncaught `TypeError`. -/
def mergeScopeRulesN (charter : PolicyCharterN) (prec : List String) :
    Except MergeErr (List PolicyRule) :=
  (mergeGoN charter.scopes [] prec).map (List.map Prod.snd)

/-- On a dict without an explicitly-null detector the refined validator
agrees with `validateRule` on the collapsed dict: the refinement only
adds the `TypeError` path. -/
theorem validateRuleN_agrees (d : RuleDictN) (h : d.detectorF ≠ .null) :
    validateRuleN d =
      (match validateRule (toRuleDict d) with
       | some r => .ok r
       | none => .invalid) := by
  cases hd : d.detectorF with
  | null => exact absurd hd h
  | absent => simp [validateRuleN, hd]
  | given s => simp [validateRuleN, hd]

theorem lookupD_map_val {β γ : Type} (m : List (String × β)) (f : β → γ)
    (k : String) :
    lookupD (m.map (fun p => (p.1, f p.2))) k = (lookupD m k).map f := by
  induction m with
  | nil => rfl
  | cons p t ih =>
    obtain ⟨k0, v0⟩ := p
    by_cases h : k0 = k
    · simp [lookupD, h]
    · simp [lookupD, h, ih]

theorem lookupD_mem {β : Type} {m : List (String × β)} {k : String} {v : β}
    (h : lookupD m k = some v) : (k, v) ∈ m := by
  induction m with
  | nil => cases h
  | cons p t ih =>
    obtain ⟨k0, v0⟩ := p
    simp only [lookupD] at h
    by_cases h0 : k0 = k
    · rw [if_pos h0] at h
      have heq : (k0, v0) = (k, v) := by rw [h0, Option.some.inj h]
      rw [← heq]
      exact List.mem_cons_self _ _
    · rw [if_neg h0] at h
      exact List.mem_cons_of_mem _ (ih h)

theorem all_eq_true_mem {α : Type} (p : α → Bool) (l : List α)
    (h : l.all p = true) : ∀ x ∈ l, p x = true := by
  induction l with
  | nil => intro x hx; cases hx
  | cons a t ih =>
    intro x hx
    have hcons : (p a && t.all p) = true := h
    have hpa : p a = true := by
      cases hq : p a with
      | true => rfl
      | false => rw [hq, Bool.false_and] at hcons; exact absurd hcons (by decide)
    have hta : t.all p = true := by
      cases hq : t.all p with
      | true => rfl
      | false => rw [hq, Bool.and_false] at hcons; exact absurd hcons (by decide)
    rcases List.mem_cons.mp hx with h1 | h1
    · rw [h1]; exact hpa
    · exact ih hta x h1

theorem processRulesN_ok (rds : List RuleDictN) :
    ∀ m, (∀ d ∈ rds, ruleDictCrashes d = false) →
      processRulesN m rds = .ok (insertAllRules m (rds.filterMap okRuleN)) := by
  induction rds with
  | nil => intro m _; rfl
  | cons d t ih =>
    intro m hall
    have hd := hall d (List.mem_cons_self _ _)
    have htail : ∀ d2 ∈ t, ruleDictCrashes d2 = false :=
      fun d2 hd2 => hall d2 (List.mem_cons_of_mem _ hd2)
    cases hv : validateRuleN d with
    | ok r =>
      have hstep : processRulesN m (d :: t) = processRulesN (insertRule m r) t := by
        simp only [processRulesN, hv]
      have hok : okRuleN d = some r := by simp [okRuleN, hv]
      rw [hstep, ih _ htail, List.filterMap_cons, hok]
      rfl
    | invalid =>
      have hstep : processRulesN m (d :: t) = processRulesN m t := by
        simp only [processRulesN, hv]
      have hok : okRuleN d = none := by simp [okRuleN, hv]
      rw [hstep, ih _ htail, List.filterMap_cons, hok]
    | typeError =>
      simp [ruleDictCrashes, hv] at hd

theorem processRulesN_isOk (rds : List RuleDictN) :
    ∀ m, (∃ m2, processRulesN m rds = .ok m2) ↔
      ∀ d ∈ rds, ruleDictCrashes d = false := by
  induction rds with
  | nil =>
    intro m
    constructor
    · intro _ d hd; cases hd
    · intro _; exact ⟨m, rfl⟩
  | cons d t ih =>
    intro m
    cases hv : validateRuleN d with
    | ok r =>
      have hstep : processRulesN m (d :: t) = processRulesN (insertRule m r) t := by
        simp only [processRulesN, hv]
      constructor
      · rintro ⟨m2, hm2⟩ d2 hd2
        rcases List.mem_cons.mp hd2 with h1 | h1
        · rw [h1]; simp [ruleDictCrashes, hv]
        · exact ((ih (insertRule m r)).mp
            ⟨m2, by rw [hstep] at hm2; exact hm2⟩) d2 h1
      · intro hall
        obtain ⟨m2, hm2⟩ := (ih (insertRule m r)).mpr
          (fun d2 hd2 => hall d2 (List.mem_cons_of_mem _ hd2))
        exact ⟨m2, by rw [hstep]; exact hm2⟩
    | invalid =>
      have hstep : processRulesN m (d :: t) = processRulesN m t := by
        simp only [processRulesN, hv]
      constructor
      · rintro ⟨m2, hm2⟩ d2 hd2
        rcases List.mem_cons.mp hd2 with h1 | h1
        · rw [h1]; simp [ruleDictCrashes, hv]
        · exact ((ih m).mp ⟨m2, by rw [hstep] at hm2; exact hm2⟩) d2 h1
      · intro hall
        obtain ⟨m2, hm2⟩ := (ih m).mpr
          (fun d2 hd2 => hall d2 (List.mem_cons_of_mem _ hd2))
        exact ⟨m2, by rw [hstep]; exact hm2⟩
    | typeError =>
      have hstep : processRulesN m (d :: t) = .error () := by
        simp only [processRulesN, hv]
      constructor
      · rintro ⟨m2, hm2⟩
        rw [hstep] at hm2
        cases hm2
      · intro hall
        have := hall d (List.mem_cons_self _ _)
        simp [ruleDictCrashes, hv] at this

theorem processScopeN_ok (sd : List (String × List RuleDictN)) :
    ∀ m, scopeHasCrash sd = false →
      processScopeN m sd = .ok (insertAllRules m (scopeValidRulesN sd)) := by
  induction sd with
  | nil => intro m _; rfl
  | cons c t ih =>
    intro m hcr
    have hor : (c.2.any ruleDictCrashes || scopeHasCrash t) = false := hcr
    have hc : c.2.any ruleDictCrashes = false := by
      cases h1 : c.2.any ruleDictCrashes with
      | false => rfl
      | true => rw [h1, Bool.true_or] at hor; exact absurd hor (by decide)
    have ht : scopeHasCrash t = false := by
      cases h1 : scopeHasCrash t with
      | false => rfl
      | true =>
        rw [h1, Bool.or_true] at hor
        exact absurd hor (by decide)
    have hcall : ∀ d ∈ c.2, ruleDictCrashes d = false := by
      intro d hd
      cases h1 : ruleDictCrashes d with
      | false => rfl
      | true =>
        have h2 : c.2.any ruleDictCrashes = true :=
          List.any_eq_true.mpr ⟨d, hd, h1⟩
        rw [h2] at hc
        cases hc
    have hstep : processScopeN m (c :: t) =
        processScopeN (insertAllRules m (c.2.filterMap okRuleN)) t := by
      simp only [processScopeN, processRulesN_ok c.2 m hcall]
    rw [hstep, ih _ ht]
    simp [scopeValidRulesN, insertAllRules, List.foldl_append]

theorem processScopeN_error (sd : List (String × List RuleDictN)) :
    ∀ m e, processScopeN m sd = .error e → scopeHasCrash sd = true := by
  intro m e h
  cases hcr : scopeHasCrash sd with
  | true => rfl
  | false => rw [processScopeN_ok sd m hcr] at h; cases h

theorem mergeGoN_ok_iff (scopes : List (String × ScopeDataN))
    (hno : ∀ p ∈ scopes, scopeHasCrash p.2 = false) :
    ∀ (prec : List String) (m : List (String × PolicyRule)),
      (∃ m2, mergeGoN scopes m prec = .ok m2) ↔
        ∀ s ∈ prec, (lookupD scopes s).isSome := by
  intro prec
  induction prec with
  | nil =>
    intro m
    constructor
    · intro _ s hs; cases hs
    · intro _; exact ⟨m, rfl⟩
  | cons s rest ih =>
    intro m
    cases hl : lookupD scopes s with
    | none =>
      have hstep : mergeGoN scopes m (s :: rest) =
          .error (.scopeErr ("Scope " ++ s ++ " not found in charter")) := by
        simp only [mergeGoN, hl]
      constructor
      · rintro ⟨m2, hm2⟩
        rw [hstep] at hm2
        cases hm2
      · intro hall
        have := hall s (List.mem_cons_self _ _)
        rw [hl] at this
        cases this
    | some sd =>
      have hcr : scopeHasCrash sd = false := hno (s, sd) (lookupD_mem hl)
      have hps := processScopeN_ok sd m hcr
      have hstep : mergeGoN scopes m (s :: rest) =
          mergeGoN scopes (insertAllRules m (scopeValidRulesN sd)) rest := by
        simp only [mergeGoN, hl, hps]
      constructor
      · rintro ⟨m2, hm2⟩
        rw [hstep] at hm2
        intro s2 hs2
        rcases List.mem_cons.mp hs2 with h1 | h1
        · rw [h1, hl]; rfl
        · exact (ih _).mp ⟨m2, hm2⟩ s2 h1
      · intro hall
        obtain ⟨m2, hm2⟩ := (ih _).mpr
          (fun s2 hs2 => hall s2 (List.mem_cons_of_mem _ hs2))
        exact ⟨m2, by rw [hstep]; exact hm2⟩

theorem mergeGoN_scopeErr (scopes : List (String × ScopeDataN)) :
    ∀ (prec : List String) (m : List (String × PolicyRule)) (msg : String),
      mergeGoN scopes m prec = .error (.scopeErr msg) →
        ∃ s ∈ prec, lookupD scopes s = none := by
  intro prec
  induction prec with
  | nil => intro m msg h; cases h
  | cons s rest ih =>
    intro m msg h
    cases hl : lookupD scopes s with
    | none => exact ⟨s, List.mem_cons_self _ _, hl⟩
    | some sd =>
      cases hp : processScopeN m sd with
      | ok m2 =>
        have hstep : mergeGoN scopes m (s :: rest) = mergeGoN scopes m2 rest := by
          simp only [mergeGoN, hl, hp]
        rw [hstep] at h
        obtain ⟨s2, hs2, hl2⟩ := ih m2 msg h
        exact ⟨s2, List.mem_cons_of_mem _ hs2, hl2⟩
      | error e =>
        have hstep : mergeGoN scopes m (s :: rest) = .error .typeErr := by
          simp only [mergeGoN, hl, hp]
        rw [hstep] at h
        injection h with h2
        cases h2

theorem mergeGoN_typeErr (scopes : List (String × ScopeDataN)) :
    ∀ (prec : List String) (m : List (String × PolicyRule)),
      mergeGoN scopes m prec = .error .typeErr →
        ∃ s ∈ prec, ∃ sd, lookupD scopes s = some sd ∧
          scopeHasCrash sd = true := by
  intro prec
  induction prec with
  | nil => intro m h; cases h
  | cons s rest ih =>
    intro m h
    cases hl : lookupD scopes s with
    | none =>
      have hstep : mergeGoN scopes m (s :: rest) =
          .error (.scopeErr ("Scope " ++ s ++ " not found in charter")) := by
        simp only [mergeGoN, hl]
      rw [hstep] at h
      injection h with h2
      cases h2
    | some sd =>
      cases hp : processScopeN m sd with
      | ok m2 =>
        have hstep : mergeGoN scopes m (s :: rest) = mergeGoN scopes m2 rest := by
          simp only [mergeGoN, hl, hp]
        rw [hstep] at h
        obtain ⟨s2, hs2, sd2, h1, h2⟩ := ih m2 h
        exact ⟨s2, List.mem_cons_of_mem _ hs2, sd2, h1, h2⟩
      | error e =>
        exact ⟨s, List.mem_cons_self _ _, sd, hl, processScopeN_error sd m e hp⟩

/-- Keep the rule dicts pydantic does not reject with a caught
`ValidationError` (so both the valid dicts and the
`TypeError`-raising ones survive). -/
def keepDictN (d : RuleDictN) : Bool :=
  match validateRuleN d with
  | .invalid => false
  | _ => true

/-- Drop from every category of a scope exactly the rule dicts
`merge_scope_rules` silently skips. -/
def filterInvalidScopeN (sd : ScopeDataN) : ScopeDataN :=
  sd.map (fun c => (c.1, c.2.filter keepDictN))

/-- A charter with all silently-skipped rule dicts removed. -/
def filterInvalidCharterN (ch : PolicyCharterN) : PolicyCharterN :=
  ⟨ch.version, ch.scopes.map (fun p => (p.1, filterInvalidScopeN p.2))⟩

theorem processRulesN_filter (rds : List RuleDictN) :
    ∀ m, processRulesN m (rds.filter keepDictN) = processRulesN m rds := by
  induction rds with
  | nil => intro m; rfl
  | cons d t ih =>
    intro m
    cases hv : validateRuleN d with
    | ok r =>
      have hk : keepDictN d = true := by simp [keepDictN, hv]
      have hfil : (d :: t).filter keepDictN = d :: t.filter keepDictN := by
        simp [List.filter_cons, hk]
      have hstep1 : processRulesN m (d :: t.filter keepDictN) =
          processRulesN (insertRule m r) (t.filter keepDictN) := by
        simp only [processRulesN, hv]
      have hstep2 : processRulesN m (d :: t) = processRulesN (insertRule m r) t := by
        simp only [processRulesN, hv]
      rw [hfil, hstep1, hstep2, ih]
    | invalid =>
      have hk : keepDictN d = false := by simp [keepDictN, hv]
      have hfil : (d :: t).filter keepDictN = t.filter keepDictN := by
        simp [List.filter_cons, hk]
      have hstep2 : processRulesN m (d :: t) = processRulesN m t := by
        simp only [processRulesN, hv]
      rw [hfil, hstep2, ih]
    | typeError =>
      have hk : keepDictN d = true := by simp [keepDictN, hv]
      have hfil : (d :: t).filter keepDictN = d :: t.filter keepDictN := by
        simp [List.filter_cons, hk]
      have hstep1 : processRulesN m (d :: t.filter keepDictN) = .error () := by
        simp only [processRulesN, hv]
      have hstep2 : processRulesN m (d :: t) = .error () := by
        simp only [processRulesN, hv]
      rw [hfil, hstep1, hstep2]

theorem processScopeN_filter (sd : List (String × List RuleDictN)) :
    ∀ m, processScopeN m (filterInvalidScopeN sd) = processScopeN m sd := by
  induction sd with
  | nil => intro m; rfl
  | cons c t ih =>
    intro m
    have hmap : filterInvalidScopeN (c :: t) =
        (c.1, c.2.filter keepDictN) :: filterInvalidScopeN t := rfl
    rw [hmap]
    cases hp : processRulesN m c.2 with
    | ok m2 =>
      have hfa : processRulesN m (c.2.filter keepDictN) = .ok m2 := by
        rw [processRulesN_filter, hp]
      have h1 : processScopeN m
          ((c.1, c.2.filter keepDictN) :: filterInvalidScopeN t) =
          processScopeN m2 (filterInvalidScopeN t) := by
        simp only [processScopeN, hfa]
      have h2 : processScopeN m (c :: t) = processScopeN m2 t := by
        simp only [processScopeN, hp]
      rw [h1, h2, ih]
    | error e =>
      have hfa : processRulesN m (c.2.filter keepDictN) = .error e := by
        rw [processRulesN_filter, hp]
      have h1 : processScopeN m
          ((c.1, c.2.filter keepDictN) :: filterInvalidScopeN t) = .error e := by
        simp only [processScopeN, hfa]
      have h2 : processScopeN m (c :: t) = .error e := by
        simp only [processScopeN, hp]
      rw [h1, h2]

theorem mergeGoN_filter (scopes : List (String × ScopeDataN)) :
    ∀ (prec : List String) (m : List (String × PolicyRule)),
      mergeGoN (scopes.map (fun p => (p.1, filterInvalidScopeN p.2))) m prec =
        mergeGoN scopes m prec := by
  intro prec
  induction prec with
  | nil => intro m; rfl
  | cons s rest ih =>
    intro m
    have hlk : lookupD (scopes.map (fun p => (p.1, filterInvalidScopeN p.2))) s =
        (lookupD scopes s).map filterInvalidScopeN := lookupD_map_val scopes _ s
    cases hl : lookupD scopes s with
    | none =>
      have h2 : lookupD (scopes.map (fun p => (p.1, filterInvalidScopeN p.2))) s =
          none := by rw [hlk, hl]; rfl
      have ha : mergeGoN (scopes.map (fun p => (p.1, filterInvalidScopeN p.2)))
          m (s :: rest) =
          .error (.scopeErr ("Scope " ++ s ++ " not found in charter")) := by
        simp only [mergeGoN, h2]
      have hb : mergeGoN scopes m (s :: rest) =
          .error (.scopeErr ("Scope " ++ s ++ " not found in charter")) := by
        simp only [mergeGoN, hl]
      rw [ha, hb]
    | some sd =>
      have h2 : lookupD (scopes.map (fun p => (p.1, filterInvalidScopeN p.2))) s =
          some (filterInvalidScopeN sd) := by rw [hlk, hl]; rfl
      cases hp : processScopeN m sd with
      | ok m2 =>
        have hpf : processScopeN m (filterInvalidScopeN sd) = .ok m2 := by
          rw [processScopeN_filter, hp]
        have ha : mergeGoN (scopes.map (fun p => (p.1, filterInvalidScopeN p.2)))
            m (s :: rest) =
            mergeGoN (scopes.map (fun p => (p.1, filterInvalidScopeN p.2)))
              m2 rest := by
          simp only [mergeGoN, h2, hpf]
        have hb : mergeGoN scopes m (s :: rest) = mergeGoN scopes m2 rest := by
          simp only [mergeGoN, hl, hp]
        rw [ha, hb, ih]
      | error e =>
        have hpf : processScopeN m (filterInvalidScopeN sd) = .error e := by
          rw [processScopeN_filter, hp]
        have ha : mergeGoN (scopes.map (fun p => (p.1, filterInvalidScopeN p.2)))
            m (s :: rest) = .error .typeErr := by
          simp only [mergeGoN, h2, hpf]
        have hb : mergeGoN scopes m (s :: rest) = .error .typeErr := by
          simp only [mergeGoN, hl, hp]
        rw [ha, hb]

theorem exceptMap_ok_iff {ε α β : Type} (x : Except ε α) (f : α → β) :
    (∃ b, x.map f = .ok b) ↔ ∃ a, x = .ok a := by
  cases x with
  | error e =>
    constructor
    · rintro ⟨b, hb⟩; cases hb
    · rintro ⟨a, ha⟩; cases ha
  | ok a =>
    constructor
    · intro _; exact ⟨a, rfl⟩
    · intro _; exact ⟨f a, rfl⟩

theorem exceptMap_error {ε α β : Type} (x : Except ε α) (f : α → β) (e : ε) :
    x.map f = .error e ↔ x = .error e := by
  cases x with
  | error e2 =>
    have hmap : Except.map f (Except.error e2 : Except ε α) =
        Except.error e2 := rfl
    rw [hmap]
    constructor
    · intro h
      injection h with h2
      rw [h2]
    · intro h
      injection h with h2
      rw [h2]
  | ok a =>
    have hmap : Except.map f (Except.ok a : Except ε α) =
        Except.ok (f a) := rfl
    rw [hmap]
    constructor
    · intro h; cases h
    · intro h; cases h

/-- C5 (amended): the error contract of `merge_scope_rules` carries a
carve-out for explicitly-null detectors.  (1) On charters where no rule
dict has an explicitly-null `detector`, the call succeeds iff every
precedence scope is present.  (2) A `ScopeError` always indicates a
missing precedence scope.  (3) A failure that is not a `ScopeError` is
the uncaught `TypeError`: some present precedence scope contains a rule
dict with an explicitly-null `detector`.  (4) Rule dicts rejected with
a caught `ValidationError` are silently skipped: removing them all
leaves the result unchanged, so they never affect the call. -/
theorem merge_scope_rules_error_contract_refined (charter : PolicyCharterN)
    (prec : List String) :
    (charterNoCrash charter = true →
      ((∃ l, mergeScopeRulesN charter prec = .ok l) ↔
        ∀ s ∈ prec, (lookupD charter.scopes s).isSome)) ∧
    (∀ msg, mergeScopeRulesN charter prec = .error (.scopeErr msg) →
      ∃ s ∈ prec, lookupD charter.scopes s = none) ∧
    (mergeScopeRulesN charter prec = .error .typeErr →
      ∃ s ∈ prec, ∃ sd, lookupD charter.scopes s = some sd ∧
        scopeHasCrash sd = true) ∧
    mergeScopeRulesN (filterInvalidCharterN charter) prec =
      mergeScopeRulesN charter prec := by
  refine ⟨?_, ?_, ?_, ?_⟩
  · intro hno
    have hno2 : ∀ p ∈ charter.scopes, scopeHasCrash p.2 = false := by
      intro p hp
      have h1 := all_eq_true_mem _ _ hno p hp
      cases h2 : scopeHasCrash p.2 with
      | false => rfl
      | true =>
        rw [h2] at h1
        exact absurd h1 (by decide)
    unfold mergeScopeRulesN
    rw [exceptMap_ok_iff]
    exact mergeGoN_ok_iff charter.scopes hno2 prec []
  · intro msg h
    unfold mergeScopeRulesN at h
    rw [exceptMap_error] at h
    exact mergeGoN_scopeErr charter.scopes prec [] msg h
  · intro h
    unfold mergeScopeRulesN at h
    rw [exceptMap_error] at h
    exact mergeGoN_typeErr charter.scopes prec [] h
  · unfold mergeScopeRulesN
    rw [show (filterInvalidCharterN charter).scopes =
      charter.scopes.map (fun p => (p.1, filterInvalidScopeN p.2)) from rfl]
    rw [mergeGoN_filter]

/-- A rule dict with an explicitly-null `detector:` entry and otherwise
valid fields. -/
def c5NullDict : RuleDictN :=
  { idF := some "SEC-002", ruleF := some "Parameterize all SQL queries",
    severityF := some "critical", detectorF := .null }

/-- A fully valid rule dict. -/
def c5GoodDict : RuleDictN :=
  { idF := some "SEC-001", ruleF := some "Never commit secrets",
    severityF := some "critical" }

/-- A schema-invalid rule dict (bad id), skipped via a caught
`ValidationError`. -/
def c5BadDict : RuleDictN :=
  { idF := some "bad id", ruleF := some "broken",
    severityF := some "critical" }

/-- Charter whose single scope `global` is present but contains the
explicitly-null-detector dict. -/
def c5NullCharter : PolicyCharterN :=
  { version := "1.0.0",
    scopes := [("global", [("security", [c5GoodDict, c5BadDict, c5NullDict])])] }

/-- The same charter with the crashing dict removed. -/
def c5CleanCharter : PolicyCharterN :=
  { version := "1.0.0",
    scopes := [("global", [("security", [c5GoodDict, c5BadDict])])] }

/-- C5 counterexample: every scope of the precedence list is present in
`c5NullCharter`, yet `merge_scope_rules` fails — with the uncaught
`TypeError`, not a `ScopeError` — because one rule dict has an
explicitly-null `detector`; dropping that single dict makes the same
call succeed.  This refutes both the claimed iff (a failure with no
missing scope) and the claim that an individual rule dict can never
make the call fail. -/
theorem merge_scope_rules_error_contract_counterexample :
    (∀ s ∈ ["global"], (lookupD c5NullCharter.scopes s).isSome) ∧
    mergeScopeRulesN c5NullCharter ["global"] = .error .typeErr ∧
    mergeScopeRulesN c5CleanCharter ["global"] =
      .ok [⟨"SEC-001", "Never commit secrets", .critical, none, false,
            none, none, []⟩] :=
  ⟨by decide, rfl, rfl⟩

theorem merge_scope_rules_error_contract_refined_witness :
    (∃ l, mergeScopeRulesN c5CleanCharter ["global"] = .ok l) ∧
    (∃ s ∈ ["global"], ∃ sd, lookupD c5NullCharter.scopes s = some sd ∧
      scopeHasCrash sd = true) := by
  constructor
  · exact ((merge_scope_rules_error_contract_refined c5CleanCharter
      ["global"]).1 (by decide)).mpr (by decide)
  · exact (merge_scope_rules_error_contract_refined c5NullCharter
      ["global"]).2.2.1 rfl

/-! ## C2: behavioral config merge (`registry._merge_ego_instances`) -/

/-- `models.ToneConfig`. -/
structure ToneConfig where
  voice : String
  verbosity : String
  formatting : List String
deriving DecidableEq, Repr

/-- `models.ModeConfig`. -/
structure ModeConfig where
  verbosity : String
  focus : Option String
deriving DecidableEq, Repr

/-- `models.EgoConfig`.  Dict-valued fields are insertion-ordered
association lists. -/
structure EgoConfig where
  role : String
  tone : ToneConfig
  defaults : List (String × String)
  reviewer_checklist : List String
  ask_when_unsure : List String
  modes : List (String × ModeConfig)
deriving DecidableEq, Repr

/-- `{**base, **override}` on CPython dicts: base keys keep their
positions (values overridden where present), new override keys are
appended in override order. -/
def dictMerge {β : Type} (base ov : List (String × β)) : List (String × β) :=
  ov.foldl (fun m p => insertD m p.1 p.2) base

/-- `PolicyRegistry._merge_ego_instances(base, override)`.

The Python implementation dumps both configs
(`override.model_dump(exclude_defaults=True)`), shallow-merges
dict-valued keys and overwrites the rest, then revalidates.  Pydantic's
`exclude_defaults` drops every field (recursively, also inside the
nested `tone` model) whose value equals its schema default, so:
* required fields (`role`, `tone.voice`, `tone.verbosity`) always
  overwrite;
* collection fields (`tone.formatting`, `reviewer_checklist`,
  `ask_when_unsure`) overwrite only when the override value differs from
  the empty-list default;
* dict fields (`defaults`, `modes`) are shallow-merged key by key
  (`{**base, **override}`), which is also a no-op when the override dict
  is empty (equal to its default and hence excluded from the dump). -/
def mergeEgoInstances (base ov : EgoConfig) : EgoConfig :=
  { role := ov.role
    tone :=
      { voice := ov.tone.voice
        verbosity := ov.tone.verbosity
        formatting :=
          if ov.tone.formatting = [] then base.tone.formatting
          else ov.tone.formatting }
    defaults := dictMerge base.defaults ov.defaults
    reviewer_checklist :=
      if ov.reviewer_checklist = [] then base.reviewer_checklist
      else ov.reviewer_checklist
    ask_when_unsure :=
      if ov.ask_when_unsure = [] then base.ask_when_unsure
      else ov.ask_when_unsure
    modes := dictMerge base.modes ov.modes }

theorem dictMerge_nil {β : Type} (base : List (String × β)) :
    dictMerge base [] = base := rfl

/-- C2: Behavioral merge non-erasure: an override whose
`ask_when_unsure` equals the schema default (the empty list) leaves the
base's `ask_when_unsure` unchanged, and more generally every collection
field equal to its schema default in the override never blanks out the
base's value. -/
theorem behavioral_merge_non_erasure (base ov : EgoConfig) :
    (ov.ask_when_unsure = [] →
      (mergeEgoInstances base ov).ask_when_unsure = base.ask_when_unsure) ∧
    (ov.reviewer_checklist = [] →
      (mergeEgoInstances base ov).reviewer_checklist = base.reviewer_checklist) ∧
    (ov.tone.formatting = [] →
      (mergeEgoInstances base ov).tone.formatting = base.tone.formatting) ∧
    (ov.defaults = [] →
      (mergeEgoInstances base ov).defaults = base.defaults) ∧
    (ov.modes = [] →
      (mergeEgoInstances base ov).modes = base.modes) := by
  refine ⟨?_, ?_, ?_, ?_, ?_⟩
  · intro h; simp [mergeEgoInstances, h]
  · intro h; simp [mergeEgoInstances, h]
  · intro h; simp [mergeEgoInstances, h]
  · intro h; rw [show (mergeEgoInstances base ov).defaults =
      dictMerge base.defaults ov.defaults from rfl, h, dictMerge_nil]
  · intro h; rw [show (mergeEgoInstances base ov).modes =
      dictMerge base.modes ov.modes from rfl, h, dictMerge_nil]

def egoBaseW : EgoConfig :=
  { role := "Senior engineer"
    tone := ⟨"precise", "concise", ["bullet points"]⟩
    defaults := [("commit_style", "conventional")]
    reviewer_checklist := ["check types"]
    ask_when_unsure := ["deleting files", "changing public APIs"]
    modes := [("review", ⟨"detailed", some "quality"⟩)] }

def egoOvW : EgoConfig :=
  { role := "Backend engineer"
    tone := ⟨"direct", "brief", []⟩
    defaults := []
    reviewer_checklist := []
    ask_when_unsure := []
    modes := [] }

theorem behavioral_merge_non_erasure_witness :
    (mergeEgoInstances egoBaseW egoOvW).ask_when_unsure =
      ["deleting files", "changing public APIs"] ∧
    (mergeEgoInstances egoBaseW egoOvW).reviewer_checklist = ["check types"] := by
  have h := behavioral_merge_non_erasure egoBaseW egoOvW
  exact ⟨(h.1 (by decide)).trans (by decide), (h.2.1 (by decide)).trans (by decide)⟩

/-! ## C3: document splicer

Modelled from the spec: the splice helpers (`EGOKIT_BEGIN_MARKER`,
`EGOKIT_END_MARKER`, `find_egokit_section`, `inject_egokit_section`) are
referenced from `cli.py` and the test suite but their definitions are
not present under `src/` (the checked-in `compiler.py` lacks them).
They are modelled here from spec section 4.2: two sentinel marker
lines delimit the managed region; `find_managed_section` returns the
offsets from the begin marker through the end marker inclusive only if
both are present with the begin marker strictly first; splice either
emits a fresh template (no existing text), replaces exactly the spanned
region, or appends the section to a document with no managed section.
The exact marker text is immaterial to the claims and is modelled as
`<!-- EGOKIT:BEGIN -->` / `<!-- EGOKIT:END -->`. -/

def beginMarker : List Char := "<!-- EGOKIT:BEGIN -->".data

def endMarker : List Char := "<!-- EGOKIT:END -->".data

/-- Index of the first occurrence of `pat` in `text` (the offset `i`
such that `pat` is the length-`pat.length` slice of `text` at `i`),
as computed by `str.find`. -/
def firstOcc? (pat : List Char) (text : List Char) : Option Nat :=
  match text with
  | [] => if pat.isEmpty then some 0 else none
  | _ :: t =>
    if text.take pat.length == pat then some 0
    else (firstOcc? pat t).map (· + 1)

/-- `pat` occurs in `text` at offset `i`. -/
def occB (pat text : List Char) (i : Nat) : Prop :=
  (text.drop i).take pat.length = pat

theorem firstOcc_occ {pat text : List Char} {n : Nat}
    (h : firstOcc? pat text = some n) : occB pat text n := by
  induction text generalizing n with
  | nil =>
    rw [firstOcc?] at h
    by_cases hp : pat.isEmpty
    · rw [if_pos hp] at h
      cases h
      simp only [occB, List.drop_nil, List.take_nil]
      exact (List.isEmpty_iff.mp hp).symm
    · rw [if_neg hp] at h; cases h
  | cons c t ih =>
    rw [firstOcc?] at h
    by_cases hc : ((c :: t).take pat.length == pat) = true
    · rw [if_pos hc] at h
      cases h
      exact (beq_iff_eq.mp hc : _)
    · rw [if_neg hc] at h
      cases hn : firstOcc? pat t with
      | none => rw [hn] at h; cases h
      | some n' =>
        rw [hn] at h
        have : n = n' + 1 := (Option.some.inj h).symm
        subst this
        show ((c :: t).drop (n' + 1)).take pat.length = pat
        rw [List.drop_succ_cons]
        exact ih hn

theorem firstOcc_min {pat text : List Char} {n : Nat}
    (h : firstOcc? pat text = some n) :
    ∀ m < n, ¬ occB pat text m := by
  induction text generalizing n with
  | nil =>
    rw [firstOcc?] at h
    by_cases hp : pat.isEmpty
    · rw [if_pos hp] at h
      cases h
      intro m hm; cases hm
    · rw [if_neg hp] at h; cases h
  | cons c t ih =>
    rw [firstOcc?] at h
    by_cases hc : ((c :: t).take pat.length == pat) = true
    · rw [if_pos hc] at h
      cases h
      intro m hm; cases hm
    · rw [if_neg hc] at h
      cases hn : firstOcc? pat t with
      | none => rw [hn] at h; cases h
      | some n' =>
        rw [hn] at h
        have : n = n' + 1 := (Option.some.inj h).symm
        subst this
        intro m hm
        cases m with
        | zero =>
          intro hocc
          exact hc (beq_iff_eq.mpr hocc)
        | succ m' =>
          intro hocc
          have : occB pat t m' := by
            show (t.drop m').take pat.length = pat
            rw [← List.drop_succ_cons (a := c)]
            exact hocc
          exact ih hn m' (Nat.lt_of_succ_lt_succ hm) this

theorem firstOcc_complete {pat text : List Char} {n : Nat}
    (hocc : occB pat text n) (hmin : ∀ m < n, ¬ occB pat text m) :
    firstOcc? pat text = some n := by
  induction text generalizing n with
  | nil =>
    have hp : pat = [] := by
      have := hocc
      simp only [occB, List.drop_nil, List.take_nil] at this
      exact this.symm
    have h0 : occB pat [] 0 := by simp [occB, hp]
    have hn0 : n = 0 := by
      by_contra hne
      exact hmin 0 (Nat.pos_of_ne_zero hne) h0
    rw [firstOcc?, if_pos (by simp [hp]), hn0]
  | cons c t ih =>
    rw [firstOcc?]
    by_cases hc : ((c :: t).take pat.length == pat) = true
    · have h0 : occB pat (c :: t) 0 := beq_iff_eq.mp hc
      have hn0 : n = 0 := by
        by_contra hne
        exact hmin 0 (Nat.pos_of_ne_zero hne) h0
      rw [if_pos hc, hn0]
    · rw [if_neg hc]
      cases n with
      | zero => exact absurd (beq_iff_eq.mpr hocc) hc
      | succ n' =>
        have hocc' : occB pat t n' := by
          have := hocc
          show (t.drop n').take pat.length = pat
          rw [← List.drop_succ_cons (a := c)]
          exact this
        have hmin' : ∀ m < n', ¬ occB pat t m := by
          intro m hm hocc2
          apply hmin (m + 1) (Nat.succ_lt_succ hm)
          show ((c :: t).drop (m + 1)).take pat.length = pat
          rw [List.drop_succ_cons]
          exact hocc2
        rw [ih hocc' hmin']
        rfl

/-- An occurrence that lies inside the left part of an append does not
depend on the right part. -/
theorem occB_append_indep {pat P : List Char} {i : Nat}
    (h : i + pat.length ≤ P.length) (r : List Char) :
    occB pat (P ++ r) i ↔ (P.drop i).take pat.length = pat := by
  have hiP : i ≤ P.length := Nat.le_trans (Nat.le_add_right i pat.length) h
  have hdrop : (P ++ r).drop i = P.drop i ++ r := by
    rw [List.drop_append_eq_append_drop, Nat.sub_eq_zero_of_le hiP, List.drop_zero]
  have hlen : pat.length ≤ (P.drop i).length := by
    rw [List.length_drop]
    omega
  have htake : (P.drop i ++ r).take pat.length = (P.drop i).take pat.length := by
    rw [List.take_append_eq_append_take, Nat.sub_eq_zero_of_le hlen,
      List.take_zero, List.append_nil]
  rw [occB, hdrop, htake]

/-- Occurrences at offsets past the left part of an append live in the
right part. -/
theorem occB_append_right {pat P r : List Char} {j : Nat} :
    occB pat (P ++ r) (P.length + j) ↔ occB pat r j := by
  have : (P ++ r).drop (P.length + j) = r.drop j := by
    rw [List.drop_append_eq_append_drop]
    have h1 : P.drop (P.length + j) = [] :=
      List.drop_eq_nil_of_le (Nat.le_add_right _ _)
    rw [h1, List.nil_append, Nat.add_sub_cancel_left]
  rw [occB, this, occB]

/-- `find_egokit_section(text)`: offsets spanning from the begin marker
through the end marker inclusive, only when both are present and the
begin marker comes strictly first. -/
def findEgokitSection (text : List Char) : Option (Nat × Nat) :=
  match firstOcc? beginMarker text, firstOcc? endMarker text with
  | some b, some t => if b < t then some (b, t + endMarker.length) else none
  | _, _ => none

/-- Human-editable placeholder text of the fresh-document template that
precedes the managed section. -/
def tmplHead : List Char :=
  "# AGENTS.md\n\n## Project Overview\n\nDescribe your project here.\n\n".data

/-- Placeholder text of the fresh-document template after the managed
section. -/
def tmplTail : List Char :=
  "\n\n## Development Notes\n\nAdd notes for the team here.\n".data

/-- `inject_egokit_section` / the spec's `splice(existing_text,
new_section_text)`: emit the full template around the section when
there is no existing document; replace exactly the spanned managed
region when the markers are found; otherwise append the section. -/
def spliceEgokitSection (existing : Option (List Char))
    (newSection : List Char) : List Char :=
  match existing with
  | none => tmplHead ++ newSection ++ tmplTail
  | some text =>
    match findEgokitSection text with
    | some (s, e) => text.take s ++ newSection ++ text.drop e
    | none => text ++ ("\n\n".data) ++ newSection

/-- Managed-section text, as produced by the section renderer: it
starts with the begin marker line, ends with the end marker line, and
contains no other occurrence of the end marker. -/
def wellFormedSectionB (s2 : List Char) : Bool :=
  (s2.take beginMarker.length == beginMarker) &&
  ((s2.drop (s2.length - endMarker.length)).take endMarker.length == endMarker) &&
  ((List.range s2.length).all fun j =>
    !((s2.drop j).take endMarker.length == endMarker) ||
      (j == s2.length - endMarker.length))

theorem endMarker_lt_beginMarker : endMarker.length < beginMarker.length := by
  decide

theorem endMarker_not_in_beginMarker :
    ∀ j < beginMarker.length, 0 < j →
      ¬ (beginMarker.drop j).take endMarker.length = endMarker := by
  decide

theorem endMarker_ne_nil : endMarker ≠ [] := by decide

/-- An occurrence lying inside an occurrence of `beginMarker` matches a
slice of the begin marker itself. -/
theorem occB_within {pat B text : List Char} {s i : Nat}
    (hB : (text.drop s).take B.length = B) (hsi : s ≤ i)
    (hiK : i + pat.length ≤ s + B.length) :
    (text.drop i).take pat.length = (B.drop (i - s)).take pat.length := by
  have hsplit : text.drop s = B ++ (text.drop s).drop B.length := by
    conv_lhs => rw [← List.take_append_drop B.length (text.drop s)]
    rw [hB]
  have hdd : text.drop i = (text.drop s).drop (i - s) := by
    rw [List.drop_drop]
    have hieq : s + (i - s) = i := by omega
    rw [hieq]
  have h1 : i - s ≤ B.length := by omega
  rw [hdd, hsplit, List.drop_append_eq_append_drop,
    Nat.sub_eq_zero_of_le h1, List.drop_zero]
  have h2 : pat.length ≤ (B.drop (i - s)).length := by
    rw [List.length_drop]; omega
  rw [List.take_append_eq_append_take, Nat.sub_eq_zero_of_le h2,
    List.take_zero, List.append_nil]

/-- C3: Splice idempotence/stability: when the existing document has a
managed section at offsets `(s, e)` and the new section text is a
well-formed managed section, splicing replaces exactly the spanned
region — everything before offset `s` (the begin marker) and after
offset `e` (the end of the end marker) survives unchanged — and
applying the splice a second time with the same section text is a
no-op. -/
theorem splice_replace_and_stable (text s2 : List Char) (s e : Nat)
    (hfind : findEgokitSection text = some (s, e))
    (hwf : wellFormedSectionB s2 = true) :
    spliceEgokitSection (some text) s2 = text.take s ++ s2 ++ text.drop e ∧
    spliceEgokitSection (some (spliceEgokitSection (some text) s2)) s2 =
      spliceEgokitSection (some text) s2 := by
  -- unpack the find result
  have hfirst : firstOcc? beginMarker text = some s ∧
      firstOcc? endMarker text = some (e - endMarker.length) ∧
      s < e - endMarker.length ∧ e = (e - endMarker.length) + endMarker.length := by
    unfold findEgokitSection at hfind
    cases hb : firstOcc? beginMarker text with
    | none => rw [hb] at hfind; cases hfind
    | some b =>
      cases ht : firstOcc? endMarker text with
      | none => rw [hb, ht] at hfind; cases hfind
      | some t =>
        rw [hb, ht] at hfind
        have hfind2 : (if b < t then some (b, t + endMarker.length) else none)
            = some (s, e) := hfind
        by_cases hlt : b < t
        · rw [if_pos hlt] at hfind2
          have h1 : b = s := congrArg Prod.fst (Option.some.inj hfind2)
          have h2 : t + endMarker.length = e :=
            congrArg Prod.snd (Option.some.inj hfind2)
          refine ⟨?_, ?_, by omega, by omega⟩
          · rw [← h1]
          · have h3 : e - endMarker.length = t := by omega
            rw [h3]
        · rw [if_neg hlt] at hfind2; cases hfind2
  obtain ⟨hB, hE, hst, he⟩ := hfirst
  set t0 := e - endMarker.length with ht0
  -- basic occurrence facts in the old document
  have hoccB : occB beginMarker text s := firstOcc_occ hB
  have hoccE : occB endMarker text t0 := firstOcc_occ hE
  -- unpack well-formedness of the section
  have hwf3 := hwf
  unfold wellFormedSectionB at hwf3
  rw [Bool.and_eq_true, Bool.and_eq_true] at hwf3
  obtain ⟨⟨hpreB, hsufB⟩, huniqB⟩ := hwf3
  have hpre : s2.take beginMarker.length = beginMarker := beq_iff_eq.mp hpreB
  have hsuf : (s2.drop (s2.length - endMarker.length)).take endMarker.length
      = endMarker := beq_iff_eq.mp hsufB
  have hlenB : beginMarker.length ≤ s2.length := by
    have := congrArg List.length hpre
    rw [List.length_take] at this
    omega
  have hlenE : endMarker.length < beginMarker.length := endMarker_lt_beginMarker
  have hEpos : 0 < endMarker.length := by decide
  have huniq : ∀ j, (s2.drop j).take endMarker.length = endMarker →
      j = s2.length - endMarker.length := by
    intro j hj
    by_cases hjlen : j < s2.length
    · have := List.all_eq_true.mp huniqB j (List.mem_range.mpr hjlen)
      rw [Bool.or_eq_true] at this
      rcases this with h1 | h1
      · exact absurd (beq_iff_eq.mpr hj) (by simpa using h1)
      · simpa using h1
    · exfalso
      have hdnil : s2.drop j = [] := List.drop_eq_nil_of_le (Nat.le_of_not_lt hjlen)
      rw [hdnil, List.take_nil] at hj
      exact endMarker_ne_nil hj.symm
  -- decompose the old document around the begin marker
  have hslen : s + beginMarker.length ≤ text.length := by
    have := congrArg List.length hoccB
    rw [List.length_take, List.length_drop] at this
    omega
  have hbeforelen : (text.take s).length = s := by
    rw [List.length_take]
    omega
  -- the spliced document
  set before := text.take s with hbef
  set after := text.drop e with haft
  set doc := before ++ s2 ++ after with hdoc
  have hsplice1 : spliceEgokitSection (some text) s2 = doc := by
    simp only [spliceEgokitSection]
    rw [hfind]
  refine ⟨hsplice1, ?_⟩
  -- jj is the offset of the end marker inside s2
  set jj := s2.length - endMarker.length with hjj
  have hjjlen : jj + endMarker.length = s2.length := by
    have : endMarker.length ≤ s2.length := by omega
    omega
  -- shared prefix of old and new documents
  have hsharedOld : text = (before ++ s2.take beginMarker.length) ++
      text.drop (s + beginMarker.length) := by
    have h1 : text.drop s = s2.take beginMarker.length ++
        text.drop (s + beginMarker.length) := by
      conv_lhs => rw [← List.take_append_drop beginMarker.length (text.drop s)]
      rw [hoccB, hpre, List.drop_drop, Nat.add_comm]
    conv_lhs => rw [← List.take_append_drop s text, h1]
    rw [List.append_assoc]
  have hsharedNew : doc = (before ++ s2.take beginMarker.length) ++
      (s2.drop beginMarker.length ++ after) := by
    rw [hdoc]
    conv_lhs => rw [← List.take_append_drop beginMarker.length s2]
    rw [← List.append_assoc before (s2.take beginMarker.length)
      (s2.drop beginMarker.length), List.append_assoc]
  have hPlen : (before ++ s2.take beginMarker.length).length =
      s + beginMarker.length := by
    rw [List.length_append, hbeforelen, List.length_take]
    omega
  -- first occurrence of the begin marker in the new document is at s
  have hoccB_new : occB beginMarker doc s := by
    show (doc.drop s).take beginMarker.length = beginMarker
    rw [hdoc, List.append_assoc, List.drop_append_eq_append_drop, hbeforelen,
      Nat.sub_self, List.drop_zero,
      List.drop_eq_nil_of_le (show before.length ≤ s by rw [hbeforelen]),
      List.nil_append, List.take_append_eq_append_take,
      Nat.sub_eq_zero_of_le hlenB, List.take_zero, List.append_nil, hpre]
  have hminB_new : ∀ m < s, ¬ occB beginMarker doc m := by
    intro m hm hocc
    have hmle : m + beginMarker.length ≤ (before ++ s2.take beginMarker.length).length := by
      rw [hPlen]; omega
    have h1 : (((before ++ s2.take beginMarker.length)).drop m).take beginMarker.length
        = beginMarker := by
      rw [hsharedNew] at hocc
      exact ((occB_append_indep hmle _).mp hocc : _)
    have h2 : occB beginMarker text m := by
      rw [hsharedOld]
      exact (occB_append_indep hmle _).mpr h1
    exact firstOcc_min hB m hm h2
  have hfirstB_new : firstOcc? beginMarker doc = some s :=
    firstOcc_complete hoccB_new hminB_new
  -- first occurrence of the end marker in the new document is at s + jj
  have hoccE_new : occB endMarker doc (s + jj) := by
    show (doc.drop (s + jj)).take endMarker.length = endMarker
    rw [hdoc, List.append_assoc, List.drop_append_eq_append_drop, hbeforelen]
    have h1 : s + jj - s = jj := by omega
    rw [List.drop_eq_nil_of_le
      (show before.length ≤ s + jj by rw [hbeforelen]; omega)]
    rw [List.nil_append, h1, List.drop_append_eq_append_drop,
      Nat.sub_eq_zero_of_le (show jj ≤ s2.length by omega), List.drop_zero]
    have h2 : endMarker.length ≤ (s2.drop jj).length := by
      rw [List.length_drop]; omega
    rw [List.take_append_eq_append_take, Nat.sub_eq_zero_of_le h2,
      List.take_zero, List.append_nil, hsuf]
  have hminE_new : ∀ m < s + jj, ¬ occB endMarker doc m := by
    intro i hi hocc
    by_cases hcase : i + endMarker.length ≤ s + beginMarker.length
    · -- the occurrence lies in the shared prefix: transfer to the old doc
      have hmle : i + endMarker.length ≤
          (before ++ s2.take beginMarker.length).length := by rw [hPlen]; omega
      have h1 : (((before ++ s2.take beginMarker.length)).drop i).take endMarker.length
          = endMarker := by
        rw [hsharedNew] at hocc
        exact ((occB_append_indep hmle _).mp hocc : _)
      have h2 : occB endMarker text i := by
        rw [hsharedOld]
        exact (occB_append_indep hmle _).mpr h1
      by_cases hit : i < t0
      · exact firstOcc_min hE i hit h2
      · -- i sits strictly inside the begin marker of the old document
        have hsi : s < i := Nat.lt_of_lt_of_le hst (Nat.le_of_not_lt hit)
        have h3 : (text.drop i).take endMarker.length =
            (beginMarker.drop (i - s)).take endMarker.length :=
          occB_within hoccB (Nat.le_of_lt hsi) hcase
        have h4 : (beginMarker.drop (i - s)).take endMarker.length = endMarker := by
          rw [← h3]; exact h2
        exact endMarker_not_in_beginMarker (i - s) (by omega) (by omega) h4
    · -- the occurrence lies inside s2: contradicts uniqueness
      have hsi : s ≤ i := by
        by_contra hlt
        have : i + endMarker.length ≤ s + beginMarker.length := by omega
        exact hcase this
      have hocc2 : occB endMarker (s2 ++ after) (i - s) := by
        have : occB endMarker (before ++ (s2 ++ after)) (before.length + (i - s)) := by
          have heq : before.length + (i - s) = i := by rw [hbeforelen]; omega
          rw [heq]
          rw [hdoc, List.append_assoc] at hocc
          exact hocc
        exact occB_append_right.mp this
      have hin : (i - s) + endMarker.length ≤ s2.length := by omega
      have h1 : (s2.drop (i - s)).take endMarker.length = endMarker :=
        (occB_append_indep hin _).mp hocc2
      have := huniq (i - s) h1
      omega
  have hfirstE_new : firstOcc? endMarker doc = some (s + jj) :=
    firstOcc_complete hoccE_new hminE_new
  -- find on the new document
  have hfind_new : findEgokitSection doc = some (s, s + jj + endMarker.length) := by
    unfold findEgokitSection
    rw [hfirstB_new, hfirstE_new]
    show (if s < s + jj then some (s, (s + jj) + endMarker.length) else none) = _
    rw [if_pos (show s < s + jj by omega)]
  -- second splice is a no-op
  rw [hsplice1]
  simp only [spliceEgokitSection]
  rw [hfind_new]
  have htake : doc.take s = before := by
    rw [hdoc, List.append_assoc, List.take_append_eq_append_take, hbeforelen,
      Nat.sub_self, List.take_zero, List.append_nil,
      List.take_of_length_le (show before.length ≤ s by rw [hbeforelen])]
  have hdrop : doc.drop (s + jj + endMarker.length) = after := by
    rw [hdoc, List.append_assoc, List.drop_append_eq_append_drop, hbeforelen]
    rw [List.drop_eq_nil_of_le (by rw [hbeforelen]; omega), List.nil_append]
    have h1 : s + jj + endMarker.length - s = s2.length := by omega
    rw [h1, List.drop_append_eq_append_drop, List.drop_eq_nil_of_le (Nat.le_refl _),
      List.nil_append, Nat.sub_self, List.drop_zero]
  show doc.take s ++ s2 ++ doc.drop (s + jj + endMarker.length) = doc
  rw [htake, hdrop, hdoc]

def spliceDocW : List Char :=
  "# Doc\n\n<!-- EGOKIT:BEGIN -->\nOLD\n<!-- EGOKIT:END -->\n\n## Tail\n".data

def spliceSecW : List Char :=
  "<!-- EGOKIT:BEGIN -->\nNEW\n<!-- EGOKIT:END -->".data

theorem splice_replace_and_stable_witness :
    spliceEgokitSection (some spliceDocW) spliceSecW =
      spliceDocW.take 7 ++ spliceSecW ++ spliceDocW.drop 52 ∧
    spliceEgokitSection (some (spliceEgokitSection (some spliceDocW) spliceSecW))
        spliceSecW =
      spliceEgokitSection (some spliceDocW) spliceSecW :=
  splice_replace_and_stable spliceDocW spliceSecW 7 52 (by decide) (by decide)

/-! ## Imprint: regex-lite engine

The Imprint detector (`imprint/detector.py`) matches user messages
against fixed banks of Python regexes built from literals, single
optional characters, character alternatives, `\s`/`\s+`/`\s*`, `\w+`
and `(?:..|..)` groups, optionally `(?i)` case-insensitive and
optionally `^`-anchored (no `re.MULTILINE`, so `^` means start of
string under `re.search`).  The engine below implements exactly these
constructs with backtracking via remainder lists.  Character classes
use the ASCII reading of `\s`/`\w`. -/

inductive RE
  | lit (s : String)
  | chrC (c : Char)
  | wsOne
  | wsPlus
  | wPlus
  | opt (r : RE)
  | alt2 (a b : RE)
  | cat (a b : RE)
deriving DecidableEq, Repr

def isWsChar (c : Char) : Bool :=
  c = ' ' || c = '\t' || c = '\n' || c = '\r' || c = '\x0b' || c = '\x0c'

def isWordC (c : Char) : Bool := c.isAlphanum || c = '_'

def ciEq (ci : Bool) (a b : Char) : Bool :=
  if ci then a.toLower = b.toLower else a = b

/-- Remainders after consuming one-or-more whitespace characters. -/
def wsRem : List Char → List (List Char)
  | [] => []
  | c :: t => if isWsChar c then t :: wsRem t else []

/-- Remainders after consuming one-or-more word characters. -/
def wordRem : List Char → List (List Char)
  | [] => []
  | c :: t => if isWordC c then t :: wordRem t else []

def litRem (ci : Bool) : List Char → List Char → Option (List Char)
  | [], cs => some cs
  | _ :: _, [] => none
  | p :: ps, c :: t => if ciEq ci p c then litRem ci ps t else none

/-- All remainders of `cs` after matching `r` at its start. -/
def mm (ci : Bool) : RE → List Char → List (List Char)
  | .lit s, cs =>
    match litRem ci s.data cs with
    | some r => [r]
    | none => []
  | .chrC ch, cs =>
    match cs with
    | [] => []
    | c :: t => if ciEq ci ch c then [t] else []
  | .wsOne, cs =>
    match cs with
    | [] => []
    | c :: t => if isWsChar c then [t] else []
  | .wsPlus, cs => wsRem cs
  | .wPlus, cs => wordRem cs
  | .opt r, cs => cs :: mm ci r cs
  | .alt2 a b, cs => mm ci a cs ++ mm ci b cs
  | .cat a b, cs => (mm ci a cs).flatMap (mm ci b)

def matchesHere (ci : Bool) (r : RE) (cs : List Char) : Bool :=
  !(mm ci r cs).isEmpty

def searchFrom (ci : Bool) (r : RE) : List Char → Bool
  | [] => matchesHere ci r []
  | c :: t => matchesHere ci r (c :: t) || searchFrom ci r t

/-- A compiled pattern: `^`-anchored or not, `(?i)` or not, body. -/
structure Pat where
  anchored : Bool
  ci : Bool
  re : RE
deriving DecidableEq, Repr

/-- `pattern.search(text)` as a Bool. -/
def patSearch (p : Pat) (text : List Char) : Bool :=
  if p.anchored then matchesHere p.ci p.re text
  else searchFrom p.ci p.re text

def seqR : List RE → RE
  | [] => .lit ""
  | [r] => r
  | r :: rest => .cat r (seqR rest)

def altR : List RE → RE
  | [] => .chrC '\x00'
  | [r] => r
  | r :: rest => .alt2 r (altR rest)

def aposC : Char := Char.ofNat 39

/-- `CORRECTION_INDICATORS` of `imprint/detector.py`, transliterated
pattern by pattern (all are `(?i)` and `^`-anchored). -/
def correctionIndicators : List Pat := [
  ⟨true, true, seqR [.lit "no", .opt (altR [.chrC ',', .chrC '.']), .wsOne]⟩,
  ⟨true, true, seqR [.lit "actually", .opt (altR [.chrC ',', .chrC '.']), .wsOne]⟩,
  ⟨true, true, seqR [.lit "that", .opt (.chrC aposC), .opt (.chrC 's'), .wsPlus,
    .lit "not", .wsPlus, altR [.lit "right", .lit "correct", .lit "what"]]⟩,
  ⟨true, true, seqR [.lit "i", .wsPlus, .lit "said", .wsPlus, .lit "to"]⟩,
  ⟨true, true, seqR [.lit "don", .opt (.chrC aposC), .lit "t", .wsPlus,
    altR [.lit "do", .lit "use"]]⟩,
  ⟨true, true, seqR [.lit "use", .wsPlus, .wPlus, .wsPlus,
    altR [.lit "not", .lit "instead"]]⟩,
  ⟨true, true, seqR [.lit "not", .wsPlus, .wPlus, .chrC ',', .opt .wsPlus,
    altR [.lit "use", .lit "try"]]⟩,
  ⟨true, true, seqR [.lit "please", .wsPlus,
    altR [seqR [.lit "don", .opt (.chrC aposC), .lit "t"], .lit "stop"]]⟩,
  ⟨true, true, seqR [.lit "i", .wsPlus, altR [.lit "wanted", .lit "meant", .lit "asked"]]⟩,
  ⟨true, true, seqR [.lit "wrong", altR [.chrC ',', .chrC '.']]⟩,
  ⟨true, true, seqR [.lit "nope", altR [.chrC ',', .chrC '.']]⟩]

/-- `STYLE_PATTERNS` of `imprint/detector.py` (dict iteration order:
concise, verbose, code_first). -/
def stylePatterns : List (String × List Pat) := [
  ("concise", [
    ⟨true, true, seqR [.lit "be", .wsPlus, .opt (seqR [.lit "more", .wsPlus]),
      .lit "concise"]⟩,
    ⟨true, true, seqR [.lit "too", .wsPlus,
      altR [.lit "verbose", .lit "long", .lit "wordy"]]⟩,
    ⟨false, true, seqR [.lit "shorter", .wsPlus,
      altR [.lit "response", .lit "answer", .lit "explanation"]]⟩,
    ⟨false, true, seqR [.lit "skip", .wsPlus, .opt (seqR [.lit "the", .wsPlus]),
      .lit "explanation"]⟩,
    ⟨true, true, seqR [.lit "just", .wsPlus, altR [.lit "show", .lit "give"],
      .wsPlus, .opt (seqR [.lit "me", .wsPlus]), .opt (seqR [.lit "the", .wsPlus]),
      .lit "code"]⟩,
    ⟨false, true, seqR [.lit "keep", .wsPlus, .lit "it", .wsPlus,
      altR [.lit "short", .lit "brief"]]⟩]),
  ("verbose", [
    ⟨true, true, seqR [.opt (seqR [.lit "i", .wsPlus, .lit "need", .wsPlus]),
      .lit "more", .wsPlus, .lit "detail"]⟩,
    ⟨true, true, seqR [.lit "explain", .wsPlus, .opt (seqR [.lit "this", .wsPlus]),
      altR [.lit "more", .lit "further", .lit "better"]]⟩,
    ⟨true, true, seqR [.lit "too", .wsPlus, .lit "brief"]⟩,
    ⟨true, true, seqR [.lit "can", .wsPlus, .lit "you", .wsPlus, .lit "elaborate"]⟩,
    ⟨true, true, seqR [.lit "please", .wsPlus, .lit "explain"]⟩,
    ⟨true, true, seqR [.lit "i", .wsPlus, .lit "don", .opt (.chrC aposC), .lit "t",
      .wsPlus, .lit "understand"]⟩]),
  ("code_first", [
    ⟨false, true, seqR [.lit "show", .wsPlus, .opt (seqR [.lit "me", .wsPlus]),
      .opt (seqR [.lit "the", .wsPlus]), .lit "code", .wsPlus, .lit "first"]⟩,
    ⟨false, true, seqR [.lit "code", .wsPlus, .lit "before", .wsPlus,
      .lit "explanation"]⟩,
    ⟨true, true, seqR [.lit "start", .wsPlus, .lit "with", .wsPlus,
      .opt (seqR [.lit "the", .wsPlus]), .lit "code"]⟩])]

/-- `SYSTEM_NOISE_PATTERNS` (case-sensitive, no `(?i)` flag). -/
def noisePatterns : List Pat := [
  ⟨true, false, .lit "<supervisor>"⟩,
  ⟨true, false, .lit "<user>"⟩,
  ⟨true, false, .lit "<agent"⟩,
  ⟨true, false, seqR [.opt .wsPlus, .chrC '#', .opt .wsPlus,
    altR [.lit "AGENTS", .lit "Policy", .lit "EgoKit"]]⟩,
  ⟨true, false, seqR [.opt .wsPlus, .lit "<!--"]⟩]

/-! ## Imprint data model (`imprint/models.py`) -/

inductive MessageRole
  | user
  | assistant
  | system
deriving DecidableEq, Repr

/-- `imprint.models.Message` (timestamps as rational epoch seconds). -/
structure Message where
  role : MessageRole
  content : String
  timestamp : Option ℚ := none
deriving DecidableEq, Repr

/-- `imprint.models.Session`. -/
structure Session where
  session_id : String
  messages : List Message
  source : String
  project_path : Option String := none
  start_time : Option ℚ := none
  end_time : Option ℚ := none
deriving DecidableEq, Repr

inductive PatternConfidence
  | low
  | medium
  | high
deriving DecidableEq, Repr

/-- `imprint.detector.DetectorConfig` with its defaults. -/
structure DetectorConfig where
  min_occurrences_high : Nat := 5
  min_occurrences_medium : Nat := 3
  min_occurrences_low : Nat := 2
  implicit_pattern_threshold : ℚ := 6 / 10
deriving DecidableEq, Repr

def defaultDetectorConfig : DetectorConfig := {}

structure CorrectionPattern where
  category : String
  description : String
  occurrences : Nat
  confidence : PatternConfidence
  evidence : List String
  sessions : List String
deriving DecidableEq, Repr

structure StylePreference where
  preference : String
  description : String
  occurrences : Nat
  confidence : PatternConfidence
  evidence : List String
  sessions : List String
deriving DecidableEq, Repr

/-- `imprint.models.ImplicitPattern`: note the dataclass has *no*
`sessions` field. -/
structure ImplicitPattern where
  pattern_type : String
  description : String
  frequency : ℚ
  occurrences : Nat
  confidence : PatternConfidence
  evidence : List String
deriving DecidableEq, Repr

/-! ## Pattern detector (`imprint/detector.py`) -/

def isSystemNoise (content : String) : Bool :=
  noisePatterns.any (fun p => patSearch p content.data)

/-- `PatternDetector._get_user_content`: user-role messages that are not
system noise, paired with their session id. -/
def userContents (sessions : List Session) : List (String × String) :=
  sessions.flatMap (fun s =>
    (s.messages.filter (fun m => m.role == .user)).filterMap
      (fun m =>
        if isSystemNoise m.content then none
        else some (m.content, s.session_id)))

def isCorrection (content : String) : Bool :=
  correctionIndicators.any (fun p => patSearch p content.data)

/-- Category keyword table of `_categorize_correction`. -/
def correctionCategories : List (String × List String) := [
  ("type_hints", ["type", "typing", "hint", "annotation", "list[", "dict["]),
  ("imports", ["import", "from ", "module"]),
  ("docstrings", ["docstring", "documentation", "google style", "numpy style"]),
  ("naming", ["name", "naming", "snake_case", "camelcase", "variable"]),
  ("testing", ["test", "testing", "pytest", "unittest"]),
  ("formatting", ["format", "indent", "spacing", "line length"])]

def containsSub (hay pat : List Char) : Bool := (firstOcc? pat hay).isSome

def categorizeCorrection (content : String) : String :=
  let lower := content.data.map Char.toLower
  match correctionCategories.find?
      (fun c => c.2.any (fun kw => containsSub lower kw.data)) with
  | some c => c.1
  | none => "general"

def stripWs (cs : List Char) : List Char :=
  ((cs.dropWhile isWsChar).reverse.dropWhile isWsChar).reverse

/-- `content[:200].strip()`. -/
def quoteOf (content : String) : String :=
  String.mk (stripWs (content.data.take 200))

/-- The raw `(category, quote, session_id)` triples collected by
`detect_corrections` before aggregation. -/
def correctionItems (sessions : List Session) : List (String × String × String) :=
  (userContents sessions).filterMap (fun p =>
    if isCorrection p.1 then some (categorizeCorrection p.1, quoteOf p.1, p.2)
    else none)

/-- Append a value to the list stored under `k` (CPython dict-of-lists
grouping: new keys appended at the end). -/
def groupAdd {α : Type} (m : List (String × List α)) (k : String) (a : α) :
    List (String × List α) :=
  match m with
  | [] => [(k, [a])]
  | (k0, l) :: t => if k0 = k then (k0, l ++ [a]) :: t else (k0, l) :: groupAdd t k a

def groupByKey {α : Type} (pairs : List (String × α)) : List (String × List α) :=
  pairs.foldl (fun m p => groupAdd m p.1 p.2) []

/-- `PatternDetector._get_confidence`. -/
def getConfidence (cfg : DetectorConfig) (count : Nat) : PatternConfidence :=
  if count ≥ cfg.min_occurrences_high then .high
  else if count ≥ cfg.min_occurrences_medium then .medium
  else .low

def replUnderscore (s : String) : String :=
  String.mk (s.data.map (fun c => if c = '_' then ' ' else c))

/-- Stable insertion sort (Python `sorted` is stable). -/
def insSorted {α : Type} (le : α → α → Bool) (a : α) : List α → List α
  | [] => [a]
  | b :: t => if le a b then a :: b :: t else b :: insSorted le a t

def insSort {α : Type} (le : α → α → Bool) : List α → List α
  | [] => []
  | a :: t => insSorted le a (insSort le t)

def mkCorrectionPattern (cfg : DetectorConfig) (c : String)
    (items : List (String × String)) : CorrectionPattern :=
  { category := c
    description := "Corrections about " ++ replUnderscore c
    occurrences := items.length
    confidence := getConfidence cfg items.length
    evidence := (items.take 5).map Prod.fst
    sessions := (items.map Prod.snd).dedup }

/-- `PatternDetector._aggregate_corrections` (group by category, apply
the minimum-occurrence gate, sort by occurrences descending). -/
def aggregateCorrections (cfg : DetectorConfig)
    (items : List (String × String × String)) : List CorrectionPattern :=
  insSort (fun p q => q.occurrences ≤ p.occurrences)
    ((groupByKey items).filterMap (fun g =>
      if g.2.length < cfg.min_occurrences_low then none
      else some (mkCorrectionPattern cfg g.1 g.2)))

def detectCorrections (cfg : DetectorConfig) (sessions : List Session) :
    List CorrectionPattern :=
  aggregateCorrections cfg (correctionItems sessions)

/-- One user message's contribution to the style-preference dict: in
the Python loop the inner `break` fires after the first matching regex
of a category, so each message is appended at most once *per category*,
but the outer loop continues with the remaining categories. -/
def styleRow (content sid : String) : List (String × String × String) :=
  stylePatterns.filterMap (fun cat =>
    if cat.2.any (fun pat => patSearch pat content.data)
    then some (cat.1, quoteOf content, sid)
    else none)

def styleItems (sessions : List Session) : List (String × String × String) :=
  (userContents sessions).flatMap (fun p => styleRow p.1 p.2)

def styleDescription (category : String) : String :=
  if category = "concise" then
    "Keep responses brief and focused on essential information"
  else if category = "verbose" then
    "Provide detailed explanations with context and rationale"
  else if category = "code_first" then
    "Show code examples before explanations"
  else "Preference for " ++ replUnderscore category ++ " style"

def mkStylePreference (cfg : DetectorConfig) (c : String)
    (items : List (String × String)) : StylePreference :=
  { preference := c
    description := styleDescription c
    occurrences := items.length
    confidence := getConfidence cfg items.length
    evidence := (items.take 5).map Prod.fst
    sessions := (items.map Prod.snd).dedup }

/-- `PatternDetector.detect_style_preferences`. -/
def detectStylePreferences (cfg : DetectorConfig) (sessions : List Session) :
    List StylePreference :=
  insSort (fun p q => q.occurrences ≤ p.occurrences)
    ((groupByKey (styleItems sessions)).filterMap (fun g =>
      if g.2.length < cfg.min_occurrences_low then none
      else some (mkStylePreference cfg g.1 g.2)))

/-- Length of a `POLICY_ID_PATTERN` match (`[A-Z]{2,6}-\d{3}` with a
trailing word boundary) at the head of `cs`;  the uppercase run length
is forced by the following `-`. -/
def idMatchLen (cs : List Char) : Option Nat :=
  let k := (cs.takeWhile isUpperAZ).length
  if 2 ≤ k ∧ k ≤ 6 then
    match cs.drop k with
    | '-' :: d1 :: d2 :: d3 :: rest2 =>
      if isDigit09 d1 && isDigit09 d2 && isDigit09 d3 then
        match rest2 with
        | [] => some (k + 4)
        | c4 :: _ => if isWordC c4 then none else some (k + 4)
      else none
    | _ => none
  else none

/-- `POLICY_ID_PATTERN.finditer`: all matches in order (with repeats).
Scans every position with a leading-word-boundary check; this equals
the non-overlapping `finditer` scan because a match can never start
inside another match (every inner position either follows a word
character or does not start with an uppercase letter). -/
def findPolicyIdsGo : List Char → Bool → List String
  | [], _ => []
  | c :: t, prevWord =>
    let rest := findPolicyIdsGo t (isWordC c)
    if prevWord then rest
    else
      match idMatchLen (c :: t) with
      | some m => String.mk ((c :: t).take m) :: rest
      | none => rest

def findPolicyIds (cs : List Char) : List String := findPolicyIdsGo cs false

/-- The raw `(policy_id, snippet, session_id)` triples of
`detect_implicit_patterns`. -/
def implicitItems (sessions : List Session) : List (String × String × String) :=
  (userContents sessions).flatMap (fun p =>
    (findPolicyIds p.1.data).map (fun pid => (pid, quoteOf p.1, p.2)))

def mkImplicitPattern (cfg : DetectorConfig) (sessions : List Session)
    (pid : String) (items : List (String × String)) : ImplicitPattern :=
  { pattern_type := "policy_reference"
    description := "User references policy " ++ pid ++ " - consider reinforcing"
    frequency :=
      if sessions.length = 0 then 0
      else (items.length : ℚ) / (sessions.length : ℚ)
    occurrences := items.length
    confidence := getConfidence cfg items.length
    evidence := (items.take 5).map Prod.fst }

/-- `PatternDetector.detect_implicit_patterns` (the `Counter` and the
evidence dict both iterate in first-encounter order, which is exactly
the grouping below; session ids are read but never stored — the
`ImplicitPattern` record has no field for them). -/
def detectImplicitPatterns (cfg : DetectorConfig) (sessions : List Session) :
    List ImplicitPattern :=
  insSort (fun p q => q.occurrences ≤ p.occurrences)
    ((groupByKey (implicitItems sessions)).filterMap (fun g =>
      if g.2.length < cfg.min_occurrences_low then none
      else some (mkImplicitPattern cfg sessions g.1 g.2)))

/-! ## Grouping lemmas -/

/-- All values stored under key `k`, in order. -/
def filterKey {α : Type} (k : String) (pairs : List (String × α)) : List α :=
  pairs.filterMap (fun p => if p.1 = k then some p.2 else none)

theorem mem_filterKey {α : Type} {k : String} {pairs : List (String × α)}
    {v : α} : v ∈ filterKey k pairs ↔ (k, v) ∈ pairs := by
  unfold filterKey
  rw [List.mem_filterMap]
  constructor
  · rintro ⟨p, hp, hv⟩
    by_cases h : p.1 = k
    · rw [if_pos h] at hv
      have : p = (k, v) := by
        obtain ⟨p1, p2⟩ := p
        simp only at h
        cases hv
        rw [h]
      exact this ▸ hp
    · rw [if_neg h] at hv; cases hv
  · intro h
    exact ⟨(k, v), h, by rw [if_pos rfl]⟩

theorem lookupD_groupAdd {α : Type} (m : List (String × List α)) (k k' : String)
    (a : α) :
    lookupD (groupAdd m k a) k' =
      if k' = k then some ((lookupD m k).getD [] ++ [a]) else lookupD m k' := by
  induction m with
  | nil =>
    simp only [groupAdd, lookupD]
    by_cases h : k' = k
    · rw [if_pos (h.symm : k = k'), if_pos h]
      rfl
    · rw [if_neg (fun hh => h hh.symm), if_neg h]
  | cons p t ih =>
    obtain ⟨k0, l⟩ := p
    simp only [groupAdd]
    by_cases h0 : k0 = k
    · rw [if_pos h0]
      simp only [lookupD]
      by_cases h : k' = k
      · rw [if_pos (h0.trans h.symm), if_pos h, if_pos h0]
        rfl
      · rw [if_neg (fun hh => h (hh.symm.trans h0)), if_neg h,
          if_neg (fun hh => h (hh.symm.trans h0))]
    · rw [if_neg h0]
      simp only [lookupD]
      by_cases h2 : k0 = k'
      · have hne : ¬ k' = k := fun hh => h0 (h2.trans hh)
        rw [if_pos h2, if_neg hne, if_pos h2]
      · rw [if_neg h2, ih]
        by_cases h : k' = k
        · rw [if_pos h, if_pos h, if_neg h0]
        · rw [if_neg h, if_neg h, if_neg h2]

theorem filterKey_cons {α : Type} (k : String) (p : String × α)
    (pairs : List (String × α)) :
    filterKey k (p :: pairs) =
      if p.1 = k then p.2 :: filterKey k pairs else filterKey k pairs := by
  unfold filterKey
  rw [List.filterMap_cons]
  by_cases h : p.1 = k
  · rw [if_pos h, if_pos h]
  · rw [if_neg h, if_neg h]

theorem lookupD_groupFold {α : Type} (pairs : List (String × α)) :
    ∀ (m : List (String × List α)) (k : String),
      lookupD (pairs.foldl (fun m p => groupAdd m p.1 p.2) m) k =
        match lookupD m k, filterKey k pairs with
        | none, [] => none
        | o, l => some (o.getD [] ++ l) := by
  induction pairs with
  | nil =>
    intro m k
    show lookupD m k = _
    cases h : lookupD m k <;> simp [filterKey, h]
  | cons p rest ih =>
    intro m k
    show lookupD (rest.foldl _ (groupAdd m p.1 p.2)) k = _
    rw [ih, lookupD_groupAdd, filterKey_cons]
    by_cases h : k = p.1
    · rw [if_pos h, if_pos (h.symm : p.1 = k), ← h]
      cases h1 : lookupD m k <;> cases h2 : filterKey k rest <;>
        simp [h1, h2]
    · rw [if_neg h, if_neg (fun hh => h hh.symm)]

theorem keys_groupAdd {α : Type} (m : List (String × List α)) (k : String)
    (a : α) :
    (groupAdd m k a).map Prod.fst =
      if k ∈ m.map Prod.fst then m.map Prod.fst else m.map Prod.fst ++ [k] := by
  induction m with
  | nil => simp [groupAdd]
  | cons p t ih =>
    obtain ⟨k0, l⟩ := p
    by_cases h0 : k0 = k
    · subst h0; simp [groupAdd]
    · have hne : ¬ k = k0 := fun h => h0 h.symm
      by_cases hk : k ∈ t.map Prod.fst <;>
        simp [groupAdd, h0, hne, hk, ih]

theorem nodupKeys_groupFold {α : Type} (pairs : List (String × α)) :
    ∀ (m : List (String × List α)), (m.map Prod.fst).Nodup →
      ((pairs.foldl (fun m p => groupAdd m p.1 p.2) m).map Prod.fst).Nodup := by
  induction pairs with
  | nil => intro m h; exact h
  | cons p rest ih =>
    intro m h
    apply ih
    rw [keys_groupAdd]
    by_cases hk : p.1 ∈ m.map Prod.fst
    · rw [if_pos hk]; exact h
    · rw [if_neg hk]
      simp only [List.nodup_append, List.nodup_cons, List.not_mem_nil,
        not_false_iff, List.nodup_nil, and_true, true_and]
      exact ⟨h, fun a ha => by
        simp only [List.mem_singleton]
        intro hak; exact hk (hak ▸ ha)⟩

theorem lookupD_of_mem_nodup {β : Type} {m : List (String × β)}
    (hnod : (m.map Prod.fst).Nodup) {k : String} {v : β}
    (h : (k, v) ∈ m) : lookupD m k = some v := by
  induction m with
  | nil => cases h
  | cons p t ih =>
    obtain ⟨k0, v0⟩ := p
    rcases List.mem_cons.mp h with h1 | h1
    · obtain ⟨hk, hv⟩ := Prod.mk.injEq .. ▸ (by exact h1.symm : (k0, v0) = (k, v))
      rw [lookupD, if_pos hk, hv]
    · have hkt : k ∈ t.map Prod.fst :=
        List.mem_map_of_mem Prod.fst h1
      have hk0 : k0 ∉ t.map Prod.fst := (List.nodup_cons.mp hnod).1
      have hne : k0 ≠ k := fun hh => hk0 (hh ▸ hkt)
      rw [lookupD, if_neg hne]
      exact ih (List.nodup_cons.mp hnod).2 h1

theorem mem_groupByKey {α : Type} {pairs : List (String × α)} {k : String}
    {l : List α} (h : (k, l) ∈ groupByKey pairs) :
    l = filterKey k pairs ∧ l ≠ [] := by
  have hnod := nodupKeys_groupFold pairs [] (by simp)
  have hlk := lookupD_of_mem_nodup hnod h
  unfold groupByKey at hlk
  rw [lookupD_groupFold] at hlk
  cases hf : filterKey k pairs with
  | nil =>
    rw [hf] at hlk
    simp [lookupD] at hlk
  | cons a t =>
    rw [hf] at hlk
    simp only [lookupD, Option.getD, List.nil_append] at hlk
    exact ⟨Option.some.inj hlk |>.symm ▸ rfl, by
      rw [← Option.some.inj hlk]; simp⟩

theorem mem_insSorted {α : Type} {le : α → α → Bool} {a b : α} {l : List α} :
    a ∈ insSorted le b l ↔ a = b ∨ a ∈ l := by
  induction l with
  | nil => simp [insSorted]
  | cons c t ih =>
    simp only [insSorted]
    by_cases h : le b c
    · rw [if_pos h]; simp
    · rw [if_neg h]
      simp only [List.mem_cons, ih]
      tauto

theorem mem_insSort {α : Type} {le : α → α → Bool} {a : α} {l : List α} :
    a ∈ insSort le l ↔ a ∈ l := by
  induction l with
  | nil => simp [insSort]
  | cons b t ih =>
    simp only [insSort, mem_insSorted, List.mem_cons, ih]

theorem mem_gate_filterMap {α β : Type} {G : List (String × List α)} {low : Nat}
    {mk : String → List α → β} {p : β} :
    p ∈ G.filterMap (fun g =>
        if g.2.length < low then none else some (mk g.1 g.2)) ↔
      ∃ g ∈ G, ¬ g.2.length < low ∧ p = mk g.1 g.2 := by
  rw [List.mem_filterMap]
  constructor
  · rintro ⟨g, hg, hfg⟩
    by_cases hlen : g.2.length < low
    · rw [if_pos hlen] at hfg; cases hfg
    · rw [if_neg hlen] at hfg
      exact ⟨g, hg, hlen, (Option.some.inj hfg).symm⟩
  · rintro ⟨g, hg, hlen, hp⟩
    exact ⟨g, hg, by rw [if_neg hlen, hp]⟩

theorem mem_detectCorrections {cfg : DetectorConfig} {sessions : List Session}
    {p : CorrectionPattern} :
    p ∈ detectCorrections cfg sessions ↔
      ∃ g ∈ groupByKey (correctionItems sessions),
        ¬ g.2.length < cfg.min_occurrences_low ∧
        p = mkCorrectionPattern cfg g.1 g.2 := by
  unfold detectCorrections aggregateCorrections
  rw [mem_insSort, mem_gate_filterMap]

theorem mem_detectStylePreferences {cfg : DetectorConfig}
    {sessions : List Session} {p : StylePreference} :
    p ∈ detectStylePreferences cfg sessions ↔
      ∃ g ∈ groupByKey (styleItems sessions),
        ¬ g.2.length < cfg.min_occurrences_low ∧
        p = mkStylePreference cfg g.1 g.2 := by
  unfold detectStylePreferences
  rw [mem_insSort, mem_gate_filterMap]

theorem mem_detectImplicitPatterns {cfg : DetectorConfig}
    {sessions : List Session} {p : ImplicitPattern} :
    p ∈ detectImplicitPatterns cfg sessions ↔
      ∃ g ∈ groupByKey (implicitItems sessions),
        ¬ g.2.length < cfg.min_occurrences_low ∧
        p = mkImplicitPattern cfg sessions g.1 g.2 := by
  unfold detectImplicitPatterns
  rw [mem_insSort, mem_gate_filterMap]

/-- C4: Confidence thresholds: with the deployed default configuration
(5/3/2), confidence is a pure function of the occurrence count — ≥ 5 is
high, 3–4 is medium, 2 is low — every pattern any of the three passes
outputs carries `getConfidence` of its own occurrence count with at
least 2 occurrences (its group's true size), and a category whose true
count is exactly 1 yields no pattern at all. -/
theorem confidence_thresholds :
    (∀ n : Nat,
      (5 ≤ n → getConfidence defaultDetectorConfig n = .high) ∧
      (3 ≤ n → n < 5 → getConfidence defaultDetectorConfig n = .medium) ∧
      (n < 3 → getConfidence defaultDetectorConfig n = .low)) ∧
    (∀ sessions : List Session, ∀ p ∈ detectCorrections defaultDetectorConfig sessions,
      p.confidence = getConfidence defaultDetectorConfig p.occurrences ∧
      2 ≤ p.occurrences ∧
      p.occurrences = (filterKey p.category (correctionItems sessions)).length) ∧
    (∀ sessions : List Session, ∀ p ∈ detectStylePreferences defaultDetectorConfig sessions,
      p.confidence = getConfidence defaultDetectorConfig p.occurrences ∧
      2 ≤ p.occurrences ∧
      p.occurrences = (filterKey p.preference (styleItems sessions)).length) ∧
    (∀ sessions : List Session, ∀ p ∈ detectImplicitPatterns defaultDetectorConfig sessions,
      p.confidence = getConfidence defaultDetectorConfig p.occurrences ∧
      2 ≤ p.occurrences) ∧
    (∀ (sessions : List Session) (c : String),
      (filterKey c (correctionItems sessions)).length = 1 →
      ∀ p ∈ detectCorrections defaultDetectorConfig sessions, p.category ≠ c) := by
  have eHigh : defaultDetectorConfig.min_occurrences_high = 5 := rfl
  have eMed : defaultDetectorConfig.min_occurrences_medium = 3 := rfl
  have eLow : defaultDetectorConfig.min_occurrences_low = 2 := rfl
  refine ⟨?_, ?_, ?_, ?_, ?_⟩
  · intro n
    unfold getConfidence
    rw [eHigh, eMed]
    refine ⟨?_, ?_, ?_⟩
    · intro h; rw [if_pos (by omega)]
    · intro h3 h5; rw [if_neg (by omega), if_pos (by omega)]
    · intro h; rw [if_neg (by omega), if_neg (by omega)]
  · intro sessions p hp
    obtain ⟨g, hg, hlen, hpe⟩ := mem_detectCorrections.mp hp
    obtain ⟨hfk, _⟩ := mem_groupByKey hg
    rw [eLow] at hlen
    subst hpe
    refine ⟨rfl, by show 2 ≤ g.2.length; omega, ?_⟩
    show g.2.length = (filterKey g.1 (correctionItems sessions)).length
    rw [← hfk]
  · intro sessions p hp
    obtain ⟨g, hg, hlen, hpe⟩ := mem_detectStylePreferences.mp hp
    obtain ⟨hfk, _⟩ := mem_groupByKey hg
    rw [eLow] at hlen
    subst hpe
    refine ⟨rfl, by show 2 ≤ g.2.length; omega, ?_⟩
    show g.2.length = (filterKey g.1 (styleItems sessions)).length
    rw [← hfk]
  · intro sessions p hp
    obtain ⟨g, hg, hlen, hpe⟩ := mem_detectImplicitPatterns.mp hp
    rw [eLow] at hlen
    subst hpe
    exact ⟨rfl, by show 2 ≤ g.2.length; omega⟩
  · intro sessions c hc p hp hcat
    obtain ⟨g, hg, hlen, hpe⟩ := mem_detectCorrections.mp hp
    obtain ⟨hfk, _⟩ := mem_groupByKey hg
    rw [eLow] at hlen
    have h1 : g.1 = c := by rw [← hcat, hpe]; exact rfl
    rw [h1] at hfk
    rw [hfk, hc] at hlen
    omega

def msgU (s : String) : Message := { role := .user, content := s }

def c4Sessions : List Session :=
  [{ session_id := "s1",
     messages := [msgU "No, use snake_case", msgU "Actually, snake_case please"],
     source := "claude_code" }]

def c4Pattern : CorrectionPattern :=
  mkCorrectionPattern defaultDetectorConfig "naming"
    [("No, use snake_case", "s1"), ("Actually, snake_case please", "s1")]

theorem confidence_thresholds_witness :
    c4Pattern.confidence = getConfidence defaultDetectorConfig c4Pattern.occurrences ∧
    2 ≤ c4Pattern.occurrences ∧
    getConfidence defaultDetectorConfig 2 = .low :=
  have h := confidence_thresholds.2.1 c4Sessions c4Pattern
    (by rw [show detectCorrections defaultDetectorConfig c4Sessions = [c4Pattern]
          from rfl]
        exact List.mem_cons_self _ _)
  ⟨h.1, h.2.1, by decide⟩

/-! ## C7: style-preference counting -/

/-- Whether a message matches the regex bank of one style category. -/
def messageMatchesCategory (c content : String) : Bool :=
  match lookupD stylePatterns c with
  | some bank => bank.any (fun pat => patSearch pat content.data)
  | none => false

theorem filterKey_append {α : Type} (k : String) (xs ys : List (String × α)) :
    filterKey k (xs ++ ys) = filterKey k xs ++ filterKey k ys := by
  unfold filterKey
  rw [List.filterMap_append]

theorem filterKey_row_of_not_mem {γ : Type} {c : String}
    {cats : List (String × γ)} (h : c ∉ cats.map Prod.fst)
    (cond : String × γ → Bool) (v : String × String) :
    filterKey c (cats.filterMap (fun cat =>
      if cond cat then some (cat.1, v) else none)) = [] := by
  induction cats with
  | nil => rfl
  | cons q t ih =>
    simp only [List.map_cons, List.mem_cons, not_or] at h
    obtain ⟨hq, ht⟩ := h
    rw [List.filterMap_cons]
    by_cases hc : cond q
    · rw [if_pos hc, filterKey_cons]
      rw [if_neg (fun hh => hq hh.symm)]
      exact ih ht
    · rw [if_neg hc]
      exact ih ht

theorem filterKey_row {γ : Type} (cats : List (String × γ))
    (hnod : (cats.map Prod.fst).Nodup) (cond : String × γ → Bool)
    (v : String × String) (c : String) :
    filterKey c (cats.filterMap (fun cat =>
        if cond cat then some (cat.1, v) else none)) =
      match lookupD cats c with
      | some b => if cond (c, b) then [v] else []
      | none => [] := by
  induction cats with
  | nil => rfl
  | cons q t ih =>
    obtain ⟨k0, b0⟩ := q
    have hnt : k0 ∉ t.map Prod.fst := (List.nodup_cons.mp hnod).1
    have hnd : (t.map Prod.fst).Nodup := (List.nodup_cons.mp hnod).2
    rw [List.filterMap_cons]
    by_cases hk : k0 = c
    · subst hk
      have hlk : lookupD ((k0, b0) :: t) k0 = some b0 := by
        simp [lookupD]
      rw [hlk]
      by_cases hc : cond (k0, b0)
      · rw [if_pos hc]
        show filterKey k0 ((k0, v) ::
            t.filterMap (fun cat => if cond cat then some (cat.1, v) else none)) =
          if cond (k0, b0) = true then [v] else []
        rw [filterKey_cons, if_pos rfl, filterKey_row_of_not_mem hnt cond v,
          if_pos hc]
      · rw [if_neg hc]
        show filterKey k0
            (t.filterMap (fun cat => if cond cat then some (cat.1, v) else none)) =
          if cond (k0, b0) = true then [v] else []
        rw [if_neg hc]
        exact filterKey_row_of_not_mem hnt cond v
    · have hlk : lookupD ((k0, b0) :: t) c = lookupD t c := by
        simp [lookupD, hk]
      rw [hlk]
      by_cases hc : cond (k0, b0)
      · rw [if_pos hc, filterKey_cons, if_neg hk]
        exact ih hnd
      · rw [if_neg hc]
        exact ih hnd

theorem stylePatterns_keys_nodup : ((stylePatterns).map Prod.fst).Nodup := by
  decide

theorem filterKey_styleRow (c content sid : String) :
    filterKey c (styleRow content sid) =
      if messageMatchesCategory c content then [(quoteOf content, sid)] else [] := by
  unfold styleRow messageMatchesCategory
  rw [filterKey_row stylePatterns stylePatterns_keys_nodup
    (fun cat => cat.2.any (fun pat => patSearch pat content.data))
    (quoteOf content, sid) c]
  cases h : lookupD stylePatterns c with
  | some bank => rfl
  | none => rfl

theorem filterKey_styleItems (c : String) (sessions : List Session) :
    filterKey c (styleItems sessions) =
      (userContents sessions).filterMap (fun q =>
        if messageMatchesCategory c q.1 then some (quoteOf q.1, q.2) else none) := by
  unfold styleItems
  induction userContents sessions with
  | nil => rfl
  | cons q t ih =>
    rw [List.flatMap_cons, filterKey_append, filterKey_styleRow,
      List.filterMap_cons, ih]
    by_cases h : messageMatchesCategory c q.1
    · rw [if_pos h, if_pos h, List.singleton_append]
    · rw [if_neg h, if_neg h, List.nil_append]

theorem length_filterMap_ite {α β : Type} (l : List α) (p : α → Bool)
    (f : α → β) :
    (l.filterMap (fun a => if p a then some (f a) else none)).length =
      (l.filter p).length := by
  induction l with
  | nil => rfl
  | cons a t ih =>
    rw [List.filterMap_cons, List.filter_cons]
    by_cases h : p a
    · rw [if_pos h, if_pos h, List.length_cons, List.length_cons, ih]
    · rw [if_neg h, if_neg (by simp [h])]
      exact ih

/-- C7 (amended): each user message is counted at most once *per style
category* (the first matching regex within a category's bank wins), so a
reported style preference's occurrence count equals the number of
non-noise user messages its own bank matches — but one message may
contribute to several different categories. -/
theorem style_counted_once_per_category (cfg : DetectorConfig)
    (sessions : List Session) :
    ∀ p ∈ detectStylePreferences cfg sessions,
      ∃ bank, lookupD stylePatterns p.preference = some bank ∧
        p.occurrences =
          ((userContents sessions).filter
            (fun q => messageMatchesCategory p.preference q.1)).length := by
  intro p hp
  obtain ⟨g, hg, hlen, hpe⟩ := mem_detectStylePreferences.mp hp
  obtain ⟨hfk, hne⟩ := mem_groupByKey hg
  subst hpe
  show ∃ bank, lookupD stylePatterns g.1 = some bank ∧
    g.2.length = ((userContents sessions).filter
      (fun q => messageMatchesCategory g.1 q.1)).length
  cases hlk : lookupD stylePatterns g.1 with
  | none =>
    exfalso
    apply hne
    rw [hfk, filterKey_styleItems]
    have hall : ∀ q ∈ userContents sessions,
        messageMatchesCategory g.1 q.1 = false := by
      intro q _
      unfold messageMatchesCategory
      rw [hlk]
    have hgen : ∀ (L : List (String × String)),
        (∀ q ∈ L, messageMatchesCategory g.1 q.1 = false) →
        L.filterMap (fun q =>
          if messageMatchesCategory g.1 q.1 then some (quoteOf q.1, q.2)
          else none) = [] := by
      intro L
      induction L with
      | nil => intro _; rfl
      | cons q t ih =>
        intro hall2
        rw [List.filterMap_cons, hall2 q (List.mem_cons_self _ _)]
        simp only [Bool.false_eq_true, if_false]
        exact ih (fun q hq => hall2 q (List.mem_cons_of_mem _ hq))
    exact hgen _ hall
  | some bank =>
    refine ⟨bank, rfl, ?_⟩
    rw [hfk, filterKey_styleItems, length_filterMap_ite]

def c7Sessions : List Session :=
  [{ session_id := "s1",
     messages := [msgU "too long, show me the code first",
                  msgU "too long, show me the code first"],
     source := "claude_code" }]

/-- C7 counterexample: two user messages produce four style-preference
occurrences (two in "concise" *and* two in "code_first"), so a single
message contributed occurrences to two different style categories —
the inner `break` in `detect_style_preferences` only stops the scan of
one category's own regex bank, not the scan over categories. -/
theorem style_single_category_counterexample :
    ((detectStylePreferences defaultDetectorConfig c7Sessions).map
      (fun p => (p.preference, p.occurrences))) =
      [("concise", 2), ("code_first", 2)] ∧
    (userContents c7Sessions).length = 2 ∧
    ((detectStylePreferences defaultDetectorConfig c7Sessions).foldl
      (fun n p => n + p.occurrences) 0) = 4 := by
  refine ⟨by decide, by decide, by decide⟩

def c7Pattern : StylePreference :=
  mkStylePreference defaultDetectorConfig "concise"
    [("too long, show me the code first", "s1"),
     ("too long, show me the code first", "s1")]

theorem style_counted_once_per_category_witness :
    ∃ bank, lookupD stylePatterns c7Pattern.preference = some bank ∧
      c7Pattern.occurrences =
        ((userContents c7Sessions).filter
          (fun q => messageMatchesCategory c7Pattern.preference q.1)).length :=
  style_counted_once_per_category defaultDetectorConfig c7Sessions c7Pattern
    (by rw [show detectStylePreferences defaultDetectorConfig c7Sessions =
          [c7Pattern, mkStylePreference defaultDetectorConfig "code_first"
            [("too long, show me the code first", "s1"),
             ("too long, show me the code first", "s1")]] from rfl]
        exact List.mem_cons_self _ _)

/-! ## C8: evidence cap and session attribution -/

/-- C8 (amended): every pattern of all three passes stores at most 5
evidence snippets; the correction and style passes additionally record
the distinct contributing session ids, but the implicit pass does not —
`ImplicitPattern` has no `sessions` field and the pass drops the ids. -/
theorem evidence_cap_and_session_attribution (cfg : DetectorConfig)
    (sessions : List Session) :
    (∀ p ∈ detectCorrections cfg sessions,
      p.evidence.length ≤ 5 ∧ p.sessions.Nodup ∧
      (∀ sid, sid ∈ p.sessions ↔
        ∃ q, (p.category, q, sid) ∈ correctionItems sessions)) ∧
    (∀ p ∈ detectStylePreferences cfg sessions,
      p.evidence.length ≤ 5 ∧ p.sessions.Nodup ∧
      (∀ sid, sid ∈ p.sessions ↔
        ∃ q, (p.preference, q, sid) ∈ styleItems sessions)) ∧
    (∀ p ∈ detectImplicitPatterns cfg sessions, p.evidence.length ≤ 5) := by
  refine ⟨?_, ?_, ?_⟩
  · intro p hp
    obtain ⟨g, hg, _, hpe⟩ := mem_detectCorrections.mp hp
    obtain ⟨hfk, _⟩ := mem_groupByKey hg
    subst hpe
    refine ⟨?_, List.nodup_dedup _, ?_⟩
    · show ((g.2.take 5).map Prod.fst).length ≤ 5
      rw [List.length_map, List.length_take]
      exact min_le_left _ _
    · intro sid
      show sid ∈ (g.2.map Prod.snd).dedup ↔
        ∃ q, (g.1, q, sid) ∈ correctionItems sessions
      rw [List.mem_dedup, List.mem_map]
      constructor
      · rintro ⟨q, hq, hsid⟩
        refine ⟨q.1, mem_filterKey.mp ?_⟩
        rw [← hfk]
        have : (q.1, sid) = q := by rw [← hsid]
        rw [this]
        exact hq
      · rintro ⟨q, hq⟩
        refine ⟨(q, sid), ?_, rfl⟩
        rw [hfk]
        exact mem_filterKey.mpr hq
  · intro p hp
    obtain ⟨g, hg, _, hpe⟩ := mem_detectStylePreferences.mp hp
    obtain ⟨hfk, _⟩ := mem_groupByKey hg
    subst hpe
    refine ⟨?_, List.nodup_dedup _, ?_⟩
    · show ((g.2.take 5).map Prod.fst).length ≤ 5
      rw [List.length_map, List.length_take]
      exact min_le_left _ _
    · intro sid
      show sid ∈ (g.2.map Prod.snd).dedup ↔
        ∃ q, (g.1, q, sid) ∈ styleItems sessions
      rw [List.mem_dedup, List.mem_map]
      constructor
      · rintro ⟨q, hq, hsid⟩
        refine ⟨q.1, mem_filterKey.mp ?_⟩
        rw [← hfk]
        have : (q.1, sid) = q := by rw [← hsid]
        rw [this]
        exact hq
      · rintro ⟨q, hq⟩
        refine ⟨(q, sid), ?_, rfl⟩
        rw [hfk]
        exact mem_filterKey.mpr hq
  · intro p hp
    obtain ⟨g, _, _, hpe⟩ := mem_detectImplicitPatterns.mp hp
    subst hpe
    show ((g.2.take 5).map Prod.fst).length ≤ 5
    rw [List.length_map, List.length_take]
    exact min_le_left _ _

def c8SessionsA : List Session :=
  [{ session_id := "aaa",
     messages := [msgU "Please follow SEC-001", msgU "Remember SEC-001"],
     source := "claude_code" }]

def c8SessionsB : List Session :=
  [{ session_id := "bbb",
     messages := [msgU "Please follow SEC-001", msgU "Remember SEC-001"],
     source := "claude_code" }]

/-- C8 counterexample: two inputs that differ only in the contributing
session ids give *identical* implicit-pattern outputs, so the implicit
pass cannot be recording the contributing session ids (the
`ImplicitPattern` record has no field for them). -/
theorem implicit_sessions_not_recorded_counterexample :
    detectImplicitPatterns defaultDetectorConfig c8SessionsA =
      detectImplicitPatterns defaultDetectorConfig c8SessionsB ∧
    (detectImplicitPatterns defaultDetectorConfig c8SessionsA).length = 1 ∧
    c8SessionsA ≠ c8SessionsB := by
  refine ⟨rfl, rfl, by decide⟩

def c8Pattern : CorrectionPattern :=
  mkCorrectionPattern defaultDetectorConfig "naming"
    [("No, use snake_case", "s1"), ("Actually, snake_case please", "s1")]

theorem evidence_cap_and_session_attribution_witness :
    c8Pattern.evidence.length ≤ 5 ∧ c8Pattern.sessions.Nodup ∧
    (∀ sid, sid ∈ c8Pattern.sessions ↔
      ∃ q, (c8Pattern.category, q, sid) ∈ correctionItems c4Sessions) :=
  (evidence_cap_and_session_attribution defaultDetectorConfig c4Sessions).1
    c8Pattern
    (by rw [show detectCorrections defaultDetectorConfig c4Sessions = [c8Pattern]
          from rfl]
        exact List.mem_cons_self _ _)

/-! ## Policy suggester (`imprint/suggester.py`) -/

inductive SrcPat
  | corr (c : CorrectionPattern)
  | style (s : StylePreference)
  | impl (p : ImplicitPattern)
deriving DecidableEq, Repr

/-- `imprint.models.PolicySuggestion`. -/
structure PolicySuggestion where
  suggested_id : String
  severity : String
  description : String
  rationale : String
  exampleF : Option String := none
  example_violation : Option String := none
  source_pattern : Option SrcPat := none
deriving DecidableEq, Repr

/-- `imprint.suggester.SuggesterConfig` with its defaults. -/
structure SuggesterConfig where
  min_confidence : PatternConfidence := .low
  include_examples : Bool := true
  max_suggestions : Nat := 10
deriving DecidableEq, Repr

def defaultSuggesterConfig : SuggesterConfig := {}

def categoryToPolicyCategory : List (String × String) := [
  ("type_hints", "code_quality"), ("imports", "code_quality"),
  ("docstrings", "documentation"), ("naming", "code_quality"),
  ("testing", "code_quality"), ("formatting", "code_quality"),
  ("general", "workflow")]

def styleToPolicyCategory : List (String × String) := [
  ("concise", "documentation"), ("verbose", "documentation"),
  ("code_first", "documentation")]

def confidenceToSeverity : PatternConfidence → String
  | .high => "required"
  | .medium => "recommended"
  | .low => "info"

def confOrder : PatternConfidence → Nat
  | .low => 0
  | .medium => 1
  | .high => 2

def meetsConfidence (cfg : SuggesterConfig) (c : PatternConfidence) : Bool :=
  confOrder cfg.min_confidence ≤ confOrder c

/-- `f"{counter:03d}"`. -/
def pad3 (n : Nat) : String :=
  let s := toString n
  if 3 ≤ s.length then s
  else String.mk (List.replicate (3 - s.length) '0') ++ s

/-- The suggester's per-instance id counter state
(`self._next_id_counter`). -/
def SuggesterState := List (String × Nat)
deriving instance DecidableEq, Repr for SuggesterState

/-- `PolicySuggester._get_next_id`: the counter for `category.upper()[:4]`
starts at 1 on first use and increments by one on each later use; the
state is never reset. -/
def getNextId (st : SuggesterState) (category : String) :
    String × SuggesterState :=
  let pfx := String.mk ((category.data.map Char.toUpper).take 4)
  match lookupD st pfx with
  | none => (pfx ++ "-" ++ pad3 1, insertD st pfx 1)
  | some n => (pfx ++ "-" ++ pad3 (n + 1), insertD st pfx (n + 1))

def correctionDescriptions : List (String × String) := [
  ("type_hints", "Use modern Python type hints consistently"),
  ("imports", "Follow import organization conventions"),
  ("docstrings", "Write docstrings following project style"),
  ("naming", "Follow naming conventions for variables and functions"),
  ("testing", "Write tests following project testing patterns"),
  ("formatting", "Follow code formatting guidelines"),
  ("general", "Follow project coding conventions")]

def buildCorrectionDescription (p : CorrectionPattern) : String :=
  (lookupD correctionDescriptions p.category).getD p.description

def styleDescTable : List (String × String) := [
  ("concise", "Keep responses concise and focused on code"),
  ("verbose", "Provide detailed explanations with code"),
  ("code_first", "Show code before explanations")]

def buildStyleDescription (p : StylePreference) : String :=
  (lookupD styleDescTable p.preference).getD p.description

/-- `PolicySuggester._build_rationale`. -/
def buildRationale (occurrences : Nat) (evidence : List String) : String :=
  let base := "Detected " ++ toString occurrences ++
    " instance(s) of this pattern in session history."
  match evidence with
  | [] => base
  | e :: _ => base ++ " Example: \"" ++ String.mk (e.data.take 100) ++ "...\""

def exampleOf (cfg : SuggesterConfig) (evidence : List String) : Option String :=
  match cfg.include_examples, evidence with
  | true, e :: _ => some e
  | _, _ => none

def suggestionFromCorrection (cfg : SuggesterConfig) (st : SuggesterState)
    (p : CorrectionPattern) : Option PolicySuggestion × SuggesterState :=
  let category := (lookupD categoryToPolicyCategory p.category).getD "workflow"
  let r := getNextId st category
  (some { suggested_id := r.1
          severity := confidenceToSeverity p.confidence
          description := buildCorrectionDescription p
          rationale := buildRationale p.occurrences p.evidence
          exampleF := exampleOf cfg p.evidence
          source_pattern := some (.corr p) }, r.2)

def suggestionFromStyle (cfg : SuggesterConfig) (st : SuggesterState)
    (p : StylePreference) : Option PolicySuggestion × SuggesterState :=
  let category := (lookupD styleToPolicyCategory p.preference).getD "documentation"
  let r := getNextId st category
  (some { suggested_id := r.1
          severity := confidenceToSeverity p.confidence
          description := buildStyleDescription p
          rationale := buildRationale p.occurrences p.evidence
          exampleF := exampleOf cfg p.evidence
          source_pattern := some (.style p) }, r.2)

/-- `PolicySuggester._suggestion_from_implicit`: patterns of type
"policy_reference" are rejected before the id counter is touched. -/
def suggestionFromImplicit (cfg : SuggesterConfig) (st : SuggesterState)
    (p : ImplicitPattern) : Option PolicySuggestion × SuggesterState :=
  if p.pattern_type = "policy_reference" then (none, st)
  else
    let r := getNextId st "workflow"
    (some { suggested_id := r.1
            severity := confidenceToSeverity p.confidence
            description := p.description
            rationale := buildRationale p.occurrences p.evidence
            exampleF := exampleOf cfg p.evidence
            source_pattern := some (.impl p) }, r.2)

def severityRank (s : String) : Nat :=
  if s = "critical" then 0
  else if s = "required" then 1
  else if s = "recommended" then 2
  else if s = "info" then 3
  else 4

/-- `PolicySuggester.generate_suggestions`, threading the id-counter
state: collect suggestions from corrections, style preferences and
implicit patterns (in that order, each gated by the minimum-confidence
filter), sort stably by severity rank and truncate to
`max_suggestions`. -/
def generateSuggestions (cfg : SuggesterConfig) (st : SuggesterState)
    (corrections : List CorrectionPattern) (stylePrefs : List StylePreference)
    (implicit : List ImplicitPattern) :
    List PolicySuggestion × SuggesterState :=
  let step1 := corrections.foldl (fun acc p =>
    if meetsConfidence cfg p.confidence then
      match suggestionFromCorrection cfg acc.2 p with
      | (some s, st') => (acc.1 ++ [s], st')
      | (none, st') => (acc.1, st')
    else acc) (([] : List PolicySuggestion), st)
  let step2 := stylePrefs.foldl (fun acc p =>
    if meetsConfidence cfg p.confidence then
      match suggestionFromStyle cfg acc.2 p with
      | (some s, st') => (acc.1 ++ [s], st')
      | (none, st') => (acc.1, st')
    else acc) step1
  let step3 := implicit.foldl (fun acc p =>
    if meetsConfidence cfg p.confidence then
      match suggestionFromImplicit cfg acc.2 p with
      | (some s, st') => (acc.1 ++ [s], st')
      | (none, st') => (acc.1, st')
    else acc) step2
  ((insSort (fun a b => severityRank a.severity ≤ severityRank b.severity)
    step3.1).take cfg.max_suggestions, step3.2)

/-- C6: Suggestion exclusion: an implicit pattern of type
"policy_reference" never yields a suggestion — `_suggestion_from_implicit`
returns `None` for it regardless of confidence or occurrences, leaving
the id-counter state untouched, and a `generate_suggestions` call whose
implicit patterns are all of that type produces no suggestions at all. -/
theorem suggestion_exclusion (cfg : SuggesterConfig) (st : SuggesterState) :
    (∀ (p : ImplicitPattern), p.pattern_type = "policy_reference" →
      ∀ st' : SuggesterState, suggestionFromImplicit cfg st' p = (none, st')) ∧
    (∀ imps : List ImplicitPattern,
      (∀ p ∈ imps, p.pattern_type = "policy_reference") →
      (generateSuggestions cfg st [] [] imps).1 = []) := by
  have hnone : ∀ (p : ImplicitPattern), p.pattern_type = "policy_reference" →
      ∀ st' : SuggesterState, suggestionFromImplicit cfg st' p = (none, st') := by
    intro p hp st'
    unfold suggestionFromImplicit
    rw [if_pos hp]
  refine ⟨hnone, ?_⟩
  intro imps hall
  have hfold : ∀ (l : List ImplicitPattern)
      (acc : List PolicySuggestion × SuggesterState),
      (∀ p ∈ l, p.pattern_type = "policy_reference") →
      (l.foldl (fun acc p =>
        if meetsConfidence cfg p.confidence then
          match suggestionFromImplicit cfg acc.2 p with
          | (some s, st') => (acc.1 ++ [s], st')
          | (none, st') => (acc.1, st')
        else acc) acc).1 = acc.1 := by
    intro l
    induction l with
    | nil => intro acc _; rfl
    | cons p t ih =>
      intro acc hall2
      show (t.foldl _ (if meetsConfidence cfg p.confidence then _ else acc)).1 = acc.1
      by_cases hm : meetsConfidence cfg p.confidence
      · rw [if_pos hm, hnone p (hall2 p (List.mem_cons_self _ _)) acc.2]
        exact ih _ (fun q hq => hall2 q (List.mem_cons_of_mem _ hq))
      · rw [if_neg hm]
        exact ih acc (fun q hq => hall2 q (List.mem_cons_of_mem _ hq))
  have h2 := hfold imps ([], st) hall
  show (insSort (fun a b => severityRank a.severity ≤ severityRank b.severity)
      (imps.foldl (fun acc p =>
        if meetsConfidence cfg p.confidence then
          match suggestionFromImplicit cfg acc.2 p with
          | (some s, st') => (acc.1 ++ [s], st')
          | (none, st') => (acc.1, st')
        else acc) (([] : List PolicySuggestion), st)).1).take cfg.max_suggestions = []
  rw [h2]
  simp [insSort]

def c6Pattern : ImplicitPattern :=
  { pattern_type := "policy_reference"
    description := "User references policy SEC-001 - consider reinforcing"
    frequency := 5
    occurrences := 12
    confidence := .high
    evidence := ["Please follow SEC-001"] }

theorem suggestion_exclusion_witness :
    (generateSuggestions defaultSuggesterConfig [] [] [] [c6Pattern]).1 = [] :=
  (suggestion_exclusion defaultSuggesterConfig []).2 [c6Pattern]
    (by intro p hp
        rw [List.mem_singleton.mp hp]
        rfl)

/-! ## C10: id counters persist across calls on one instance -/

def c10Pattern : CorrectionPattern :=
  { category := "naming"
    description := "Corrections about naming"
    occurrences := 3
    confidence := .medium
    evidence := ["No, use snake_case"]
    sessions := ["s1"] }

/-- C10: on one `PolicySuggester` instance the per-prefix id counter
starts at 1 on its first use and increments by 1 on every later use,
and the state is threaded, never reset, between `generate_suggestions`
calls — so a second call with identical inputs continues the count
(`CODE-002` after `CODE-001`) instead of restarting. -/
theorem suggester_id_counters_persist :
    (∀ (st : SuggesterState) (category : String),
      (lookupD st (String.mk ((category.data.map Char.toUpper).take 4)) = none →
        getNextId st category =
          (String.mk ((category.data.map Char.toUpper).take 4) ++ "-" ++ pad3 1,
           insertD st (String.mk ((category.data.map Char.toUpper).take 4)) 1)) ∧
      (∀ n, lookupD st (String.mk ((category.data.map Char.toUpper).take 4)) = some n →
        getNextId st category =
          (String.mk ((category.data.map Char.toUpper).take 4) ++ "-" ++ pad3 (n + 1),
           insertD st (String.mk ((category.data.map Char.toUpper).take 4)) (n + 1)))) ∧
    ((generateSuggestions defaultSuggesterConfig [] [c10Pattern] [] []).1.map
        (fun s => s.suggested_id) = ["CODE-001"] ∧
      ((generateSuggestions defaultSuggesterConfig
          (generateSuggestions defaultSuggesterConfig [] [c10Pattern] [] []).2
          [c10Pattern] [] []).1.map (fun s => s.suggested_id)) = ["CODE-002"]) := by
  refine ⟨?_, rfl, rfl⟩
  intro st category
  constructor
  · intro h
    simp only [getNextId]
    rw [h]
  · intro n h
    simp only [getNextId]
    rw [h]

theorem suggester_id_counters_persist_witness :
    getNextId ([] : SuggesterState) "code_quality" =
      ("CODE" ++ "-" ++ pad3 1, insertD [] "CODE" 1) ∧
    getNextId [("CODE", 3)] "code_quality" =
      ("CODE" ++ "-" ++ pad3 4, insertD [("CODE", 3)] "CODE" 4) := by
  constructor
  · have h := (suggester_id_counters_persist.1 [] "code_quality").1 rfl
    exact h.trans (by rfl)
  · have h := (suggester_id_counters_persist.1 [("CODE", 3)] "code_quality").2 3 rfl
    exact h.trans (by rfl)

/-! ## C9: timestamp normalization (`imprint/parsers.py`)

`datetime` values are modelled as rational epoch seconds:
`datetime.fromtimestamp(x, tz=UTC)` is the identity on the seconds
value `x` under this identification (its out-of-range `OverflowError`
is outside the model), and the stdlib `datetime.fromisoformat` is an
uninterpreted parameter `fromIso` covering the `try/except ValueError`
string branch. -/

def MILLISECOND_TIMESTAMP_THRESHOLD : ℚ := 10 ^ 12

/-- A JSON timestamp value as dispatched on by `_parse_timestamp`:
`None`, a number, or a string. -/
inductive TsVal
  | num (q : ℚ)
  | str (s : String)
  | null
deriving DecidableEq

/-- `ClaudeCodeParser._parse_timestamp`: numbers go straight to
`datetime.fromtimestamp` — there is *no* millisecond-threshold check in
this parser. -/
def claudeParseTimestamp (fromIso : String → Option ℚ) : TsVal → Option ℚ
  | .null => none
  | .num q => some q
  | .str s => fromIso (s.replace "Z" "+00:00")

/-- `AugmentParser._parse_timestamp`: numbers above the 10^12 threshold
are treated as milliseconds and divided by 1000 before conversion. -/
def augmentParseTimestamp (fromIso : String → Option ℚ) : TsVal → Option ℚ
  | .null => none
  | .num q =>
    some (if q > MILLISECOND_TIMESTAMP_THRESHOLD then q / 1000 else q)
  | .str s => fromIso (s.replace "Z" "+00:00")

/-- C9 counterexample: the Claude Code parser hands a numeric timestamp
of `2·10^12` — far above the millisecond threshold — to
`datetime.fromtimestamp` undivided, while the claim says every numeric
epoch timestamp in Imprint input above `10^12` is divided by 1000. -/
theorem timestamp_threshold_counterexample :
    claudeParseTimestamp (fun _ => none) (.num (2 * 10 ^ 12)) =
      some (2 * 10 ^ 12) ∧
    (2 * 10 ^ 12 : ℚ) > MILLISECOND_TIMESTAMP_THRESHOLD ∧
    some ((2 * 10 ^ 12 : ℚ)) ≠ some ((2 * 10 ^ 12 : ℚ) / 1000) := by
  refine ⟨rfl, by norm_num [MILLISECOND_TIMESTAMP_THRESHOLD], by norm_num⟩

/-- C9 (amended): only the Augment parser applies the 10^12
millisecond threshold — numeric values above it are divided by 1000 and
values at or below it are taken as seconds — while the Claude Code
parser treats every numeric timestamp as seconds; ISO-8601 strings are
handed to `fromisoformat` directly (after `Z` normalization) by both. -/
theorem timestamp_normalization (fromIso : String → Option ℚ) (q : ℚ)
    (s : String) :
    (q > MILLISECOND_TIMESTAMP_THRESHOLD →
      augmentParseTimestamp fromIso (.num q) = some (q / 1000)) ∧
    (q ≤ MILLISECOND_TIMESTAMP_THRESHOLD →
      augmentParseTimestamp fromIso (.num q) = some q) ∧
    claudeParseTimestamp fromIso (.num q) = some q ∧
    augmentParseTimestamp fromIso (.str s) = fromIso (s.replace "Z" "+00:00") ∧
    claudeParseTimestamp fromIso (.str s) = fromIso (s.replace "Z" "+00:00") ∧
    augmentParseTimestamp fromIso .null = none ∧
    claudeParseTimestamp fromIso .null = none := by
  refine ⟨?_, ?_, rfl, rfl, rfl, rfl, rfl⟩
  · intro h
    show some (if q > MILLISECOND_TIMESTAMP_THRESHOLD then q / 1000 else q) = _
    rw [if_pos h]
  · intro h
    show some (if q > MILLISECOND_TIMESTAMP_THRESHOLD then q / 1000 else q) = _
    rw [if_neg (not_lt.mpr h)]

theorem timestamp_normalization_witness :
    augmentParseTimestamp (fun _ => none) (.num (2 * 10 ^ 12)) =
      some ((2 * 10 ^ 12 : ℚ) / 1000) ∧
    augmentParseTimestamp (fun _ => none) (.num 5) = some 5 :=
  ⟨(timestamp_normalization (fun _ => none) (2 * 10 ^ 12) "x").1
      (by norm_num [MILLISECOND_TIMESTAMP_THRESHOLD]),
    (timestamp_normalization (fun _ => none) 5 "x").2.1
      (by norm_num [MILLISECOND_TIMESTAMP_THRESHOLD])⟩

end Egokit
